import Mathlib

/-!
# Rule matcher and project resolver

A shallow embedding of two files of the repository:

* `pkg/utils/role.go`: `Mergesubjects`, `EqualSubjects`, `APIGroupMatches`,
  `ResourceMatches`, `VerbMatches`, `GetViewResourceFromClusterRole`,
  `GetAdminResourceFromClusterRole`;
* `pkg/proxyserver/rest/project/list.go`: `listProjects`, `isBoundUser`,
  `isKubeVirtRole`.

Modelling conventions.

* A Go `string` is a Lean `String`, read as the sequence of its code units:
  `len` is the number of units, `strings.HasPrefix` and `strings.HasSuffix`
  are the prefix and suffix tests on that sequence. The code compares strings
  for equality, and its one length test, `len(r) == len(s) + 2` next to a
  prefix and a suffix test, has the same outcome on the bytes of the strings
  and on their characters.
* A Go slice that is only ranged over is a `List`; a `for ... range` loop with
  `continue` and `return` is a structural recursion over that list whose
  branches are the loop body's exits, in the source's order; a loop without
  `return` is a left fold of its body.
* `sets.String` (a `map[string]struct{}`) is a `Finset String`;
  `sets.NewString()` is `∅` and `names.Insert(xs...)` is `names ∪ xs.toFinset`.
* A `map[rbacv1.Subject]bool` is an association list with distinct keys,
  written by `mapAssign` and read by `List.lookup`; `reflect.DeepEqual` on two
  such maps is `DeepEqual`.
* A value of the dynamic type `any` found in an unstructured object is a
  `Value`; a `map[string]any` is an association list read by `List.lookup`.
* A triple `(value, found, err)` returned by the `unstructured.Nested*`
  accessors is a `Nested`.
* Calls to `klog` only write diagnostics and are left out.
-/

-- The `name` argument of `listProjects` only feeds log messages.
set_option linter.unusedVariables false

namespace Foundation

/-! ## Data of `k8s.io/api/rbac/v1` -/

/-- The constant `rbacv1.APIGroupAll`. -/
def APIGroupAll : String := "*"

/-- The constant `rbacv1.ResourceAll`. -/
def ResourceAll : String := "*"

/-- The constant `rbacv1.GroupKind`. -/
def GroupKind : String := "Group"

/-- The constant `rbacv1.UserKind`. -/
def UserKind : String := "User"

/-- The struct `rbacv1.Subject`. -/
structure Subject where
  Kind : String
  APIGroup : String
  Name : String
  Namespace : String
deriving DecidableEq

/-- The struct `rbacv1.PolicyRule`. -/
structure PolicyRule where
  Verbs : List String
  APIGroups : List String
  Resources : List String
  ResourceNames : List String
  NonResourceURLs : List String
deriving DecidableEq

/-- The struct `rbacv1.ClusterRole`, reduced to the field the code reads. -/
structure ClusterRole where
  Rules : List PolicyRule
deriving DecidableEq

/-! ## Go string primitives -/

/-- Go's builtin `len` on a string. -/
def len (s : String) : Nat := s.data.length

/-- Go's `strings.HasPrefix(s, p)`. -/
def HasPrefix (s p : String) : Bool := p.data.isPrefixOf s.data

/-- Go's `strings.HasSuffix(s, p)`. -/
def HasSuffix (s p : String) : Bool := p.data.isSuffixOf s.data

/-! ## `pkg/utils/role.go` -/

/-- The loop of `APIGroupMatches` over `rule.APIGroups`. -/
def APIGroupMatches.loop (requestedGroup : String) : List String → Bool
  | [] => false
  | ruleGroup :: rest =>
    if ruleGroup == APIGroupAll then true
    else if ruleGroup == requestedGroup then true
    else APIGroupMatches.loop requestedGroup rest

/-- The function `APIGroupMatches` of `role.go`. -/
def APIGroupMatches (rule : PolicyRule) (requestedGroup : String) : Bool :=
  APIGroupMatches.loop requestedGroup rule.APIGroups

/-- The loop of `ResourceMatches` over `rule.Resources`. -/
def ResourceMatches.loop (combinedRequestedResource requestedSubresource : String) :
    List String → Bool
  | [] => false
  | ruleResource :: rest =>
    if ruleResource == ResourceAll then true
    else if ruleResource == combinedRequestedResource then true
    else if len requestedSubresource == 0 then
      ResourceMatches.loop combinedRequestedResource requestedSubresource rest
    else if len ruleResource == len requestedSubresource + 2 &&
        HasPrefix ruleResource "*/" &&
        HasSuffix ruleResource requestedSubresource then true
    else ResourceMatches.loop combinedRequestedResource requestedSubresource rest

/-- The function `ResourceMatches` of `role.go`. -/
def ResourceMatches (rule : PolicyRule)
    (combinedRequestedResource requestedSubresource : String) : Bool :=
  ResourceMatches.loop combinedRequestedResource requestedSubresource rule.Resources

/-- The loop of `VerbMatches` over `rule.Verbs`. -/
def VerbMatches.loop (requestedVerb : String) : List String → Bool
  | [] => false
  | verb :: rest =>
    if verb == requestedVerb then true else VerbMatches.loop requestedVerb rest

/-- The function `VerbMatches` of `role.go`. -/
def VerbMatches (rule : PolicyRule) (requestedVerb : String) : Bool :=
  VerbMatches.loop requestedVerb rule.Verbs

/-- The loop of `GetViewResourceFromClusterRole` over `clusterRole.Rules`;
`names` is the set accumulated so far, the result is `(names, all)`. -/
def GetViewResourceFromClusterRole.loop (group resource : String) :
    List PolicyRule → Finset String → Finset String × Bool
  | [], names => (names, false)
  | rule :: rest, names =>
    if !APIGroupMatches rule group then
      GetViewResourceFromClusterRole.loop group resource rest names
    else if !VerbMatches rule "get" && !VerbMatches rule "list" &&
        !VerbMatches rule "*" then
      GetViewResourceFromClusterRole.loop group resource rest names
    else if rule.ResourceNames.length == 0 then (names, true)
    else if !ResourceMatches rule resource "" then
      GetViewResourceFromClusterRole.loop group resource rest names
    else
      GetViewResourceFromClusterRole.loop group resource rest
        (names ∪ rule.ResourceNames.toFinset)

/-- The function `GetViewResourceFromClusterRole` of `role.go`. -/
def GetViewResourceFromClusterRole (clusterRole : ClusterRole)
    (group resource : String) : Finset String × Bool :=
  GetViewResourceFromClusterRole.loop group resource clusterRole.Rules ∅

/-- The loop of `GetAdminResourceFromClusterRole` over `clusterRole.Rules`. -/
def GetAdminResourceFromClusterRole.loop (group resource : String) :
    List PolicyRule → Finset String → Finset String × Bool
  | [], names => (names, false)
  | rule :: rest, names =>
    if !APIGroupMatches rule group then
      GetAdminResourceFromClusterRole.loop group resource rest names
    else if !(VerbMatches rule "update" &&
          (VerbMatches rule "get" || VerbMatches rule "list")) &&
        !VerbMatches rule "*" then
      GetAdminResourceFromClusterRole.loop group resource rest names
    else if rule.ResourceNames.length == 0 then (names, true)
    else if !ResourceMatches rule resource "" then
      GetAdminResourceFromClusterRole.loop group resource rest names
    else
      GetAdminResourceFromClusterRole.loop group resource rest
        (names ∪ rule.ResourceNames.toFinset)

/-- The function `GetAdminResourceFromClusterRole` of `role.go`. -/
def GetAdminResourceFromClusterRole (clusterRole : ClusterRole)
    (group resource : String) : Finset String × Bool :=
  GetAdminResourceFromClusterRole.loop group resource clusterRole.Rules ∅

/-- A Go `map[rbacv1.Subject]bool`: an association list read by `List.lookup`,
its keys kept distinct by `mapAssign`. -/
abbrev SubjectMap := List (Subject × Bool)

/-- The Go assignment `m[k] = v`: the entry of key `k` is overwritten if there
is one, and added otherwise. -/
def mapAssign : SubjectMap → Subject → Bool → SubjectMap
  | [], k, v => [(k, v)]
  | (k0, v0) :: rest, k, v =>
    if k0 == k then (k, v) :: rest else (k0, v0) :: mapAssign rest k v

/-- Go's `reflect.DeepEqual` on two non-nil maps: the same number of entries,
and every key of the first is a key of the second with an equal value. -/
def DeepEqual (m1 m2 : SubjectMap) : Bool :=
  m1.length == m2.length && m1.all (fun kv => m2.lookup kv.1 == some kv.2)

/-- The function `Mergesubjects` of `role.go`. The result is the value of the
returned slice; whether `append` reuses the backing array of `subjects` is not
part of the model. -/
def Mergesubjects (subjects cursubjects : List Subject) : List Subject :=
  let subjectmap : SubjectMap :=
    subjects.foldl (fun m subject => mapAssign m subject true) []
  cursubjects.foldl
    (fun returnSubjects cursubject =>
      if (subjectmap.lookup cursubject).isNone then returnSubjects ++ [cursubject]
      else returnSubjects)
    subjects

/-- The function `EqualSubjects` of `role.go`. -/
def EqualSubjects (subjects1 subjects2 : List Subject) : Bool :=
  if subjects1.length != subjects2.length then false
  else
    let subjectMap1 : SubjectMap :=
      subjects1.foldl (fun m curSubject => mapAssign m curSubject true) []
    let subjectMap2 : SubjectMap :=
      subjects2.foldl (fun m curSubject => mapAssign m curSubject true) []
    DeepEqual subjectMap1 subjectMap2

/-! ## Unstructured objects (`k8s.io/apimachinery`) -/

/-- A value of dynamic type `any` inside an unstructured object: `nil`, a
`bool`, an `int64`, a `float64` (kept as its bit pattern), a `string`, a
`[]any` or a `map[string]any`. -/
inductive Value where
  | null : Value
  | bool (b : Bool) : Value
  | int (i : Int) : Value
  | float (bits : Nat) : Value
  | str (s : String) : Value
  | slice (xs : List Value) : Value
  | map (m : List (String × Value)) : Value

/-- A Go `map[string]any`. -/
abbrev GoMap := List (String × Value)

/-- The outcome `(value, found, err)` of a `Nested*` accessor: `found v` is
`(v, true, nil)`, `absent` is `(zero, false, nil)` and `error` is
`(zero, false, err)` with `err != nil`. -/
inductive Nested (α : Type) where
  | found (v : α) : Nested α
  | absent : Nested α
  | error : Nested α
deriving DecidableEq

/-- The loop of `unstructured.NestedFieldNoCopy` over `fields`, `val` being
the value reached so far. -/
def NestedFieldNoCopy.loop : Value → List String → Nested Value
  | val, [] => .found val
  | .null, _ :: _ => .absent
  | .map m, field :: rest =>
    match m.lookup field with
    | some v => NestedFieldNoCopy.loop v rest
    | none => .absent
  | _, _ :: _ => .error

/-- The function `unstructured.NestedFieldNoCopy`. -/
def NestedFieldNoCopy (obj : GoMap) (fields : List String) : Nested Value :=
  NestedFieldNoCopy.loop (.map obj) fields

/-- The function `unstructured.NestedSlice`. -/
def NestedSlice (obj : GoMap) (fields : List String) : Nested (List Value) :=
  match NestedFieldNoCopy obj fields with
  | .absent => .absent
  | .error => .error
  | .found (.slice xs) => .found xs
  | .found _ => .error

/-- The function `unstructured.NestedMap`. -/
def NestedMap (obj : GoMap) (fields : List String) : Nested GoMap :=
  match NestedFieldNoCopy obj fields with
  | .absent => .absent
  | .error => .error
  | .found (.map m) => .found m
  | .found _ => .error

/-- The function `unstructured.NestedString`. -/
def NestedString (obj : GoMap) (fields : List String) : Nested String :=
  match NestedFieldNoCopy obj fields with
  | .absent => .absent
  | .error => .error
  | .found (.str s) => .found s
  | .found _ => .error

/-! ## `pkg/proxyserver/rest/project/list.go` -/

/-- The struct `projectView` of `list.go`. -/
structure projectView where
  name : String
  cluster : String
deriving DecidableEq

/-- What the code reads of a `user.Info`: the results of `GetName()` and
`GetGroups()`. -/
structure UserInfo where
  GetName : String
  GetGroups : List String
deriving DecidableEq

/-- The function `isBoundUser` of `list.go`. -/
def isBoundUser (subject : Subject) (userInfo : UserInfo) : Bool :=
  if subject.Kind == GroupKind then
    if userInfo.GetGroups.contains subject.Name then true else false
  else if subject.Kind == UserKind then
    subject.Name == userInfo.GetName
  else false

/-- The function `isKubeVirtRole` of `list.go`. -/
def isKubeVirtRole (name : String) : Bool :=
  name == "kubevirt.io:admin" || name == "kubevirt.io:edit" || name == "kubevirt.io:view"

/-- The body of the `for _, rb := range roleBindings` loop of `listProjects`:
the value of `projects` after the iteration on `rb`. The subject decoder
`toSubject` belongs to the package but not to the files at hand, so it is a
parameter; `none` stands for a non-nil error. -/
def listProjects.body (toSubject : GoMap → Option Subject) (namespace_ : String)
    (userInfo : UserInfo) (projects : List projectView) (rb : Value) :
    List projectView :=
  match rb with
  | .map binding =>
    match toSubject binding with
    | none => projects
    | some subject =>
      if !isBoundUser subject userInfo then projects
      else
        match NestedMap binding ["roleRef"] with
        | .error => projects
        | .absent => projects
        | .found roleRef =>
          match NestedString roleRef ["name"] with
          | .error => projects
          | .absent => projects
          | .found roleName =>
            if !isKubeVirtRole roleName then projects
            else
              match NestedString binding ["namespace"] with
              | .error => projects
              | .absent => projects
              | .found ns => projects ++ [{ name := ns, cluster := namespace_ }]
  | _ => projects

/-- The function `listProjects` of `list.go`. The converter
`runtime.DefaultUnstructuredConverter.ToUnstructured` is a parameter, `none`
standing for a non-nil error. -/
def listProjects {Obj : Type} (ToUnstructured : Obj → Option GoMap)
    (toSubject : GoMap → Option Subject)
    (namespace_ name : String) (obj : Obj) (userInfo : UserInfo) :
    List projectView :=
  let projects : List projectView := []
  match ToUnstructured obj with
  | none => projects
  | some u =>
    match NestedSlice u ["spec", "roleBindings"] with
    | .error => projects
    | .absent => projects
    | .found roleBindings =>
      roleBindings.foldl (listProjects.body toSubject namespace_ userInfo) projects

/-! ## Auxiliary definitions for the statements -/

/-- The verb test of `GetViewResourceFromClusterRole`, as a proposition on
the rule's verb list. -/
def viewVerbs (rule : PolicyRule) : Prop :=
  "get" ∈ rule.Verbs ∨ "list" ∈ rule.Verbs ∨ "*" ∈ rule.Verbs

/-- The verb test of `GetAdminResourceFromClusterRole`, as a proposition on
the rule's verb list. -/
def adminVerbs (rule : PolicyRule) : Prop :=
  ("update" ∈ rule.Verbs ∧ ("get" ∈ rule.Verbs ∨ "list" ∈ rule.Verbs)) ∨ "*" ∈ rule.Verbs

instance (rule : PolicyRule) : Decidable (viewVerbs rule) := by
  unfold viewVerbs; infer_instance

instance (rule : PolicyRule) : Decidable (adminVerbs rule) := by
  unfold adminVerbs; infer_instance

/-- The common shape of the two aggregation loops of `role.go`, the verb test
`verbsOk` being the only place where they differ. -/
def aggregate (verbsOk : PolicyRule → Bool) (group resource : String) :
    List PolicyRule → Finset String → Finset String × Bool
  | [], names => (names, false)
  | rule :: rest, names =>
    if !APIGroupMatches rule group then aggregate verbsOk group resource rest names
    else if !verbsOk rule then aggregate verbsOk group resource rest names
    else if rule.ResourceNames.length == 0 then (names, true)
    else if !ResourceMatches rule resource "" then
      aggregate verbsOk group resource rest names
    else aggregate verbsOk group resource rest (names ∪ rule.ResourceNames.toFinset)

/-- The verb test of `GetViewResourceFromClusterRole` as the code computes
it. -/
def viewVerbsOk (rule : PolicyRule) : Bool :=
  VerbMatches rule "get" || VerbMatches rule "list" || VerbMatches rule "*"

/-- The verb test of `GetAdminResourceFromClusterRole` as the code computes
it. -/
def adminVerbsOk (rule : PolicyRule) : Bool :=
  (VerbMatches rule "update" && (VerbMatches rule "get" || VerbMatches rule "list")) ||
    VerbMatches rule "*"

/-! ## Concrete inputs used in the examples -/

/-- A rule over every API group with the given verbs, resources and resource
names. -/
def mkRule (verbs resources resourceNames : List String) : PolicyRule :=
  { Verbs := verbs, APIGroups := ["*"], Resources := resources,
    ResourceNames := resourceNames, NonResourceURLs := [] }

/-- The cluster object `obj` converts to an attribute map whose field `spec`
is a map whose field `roleBindings` is the sequence `bs`. -/
def hasRoleBindings {Obj : Type} (ToUnstructured : Obj → Option GoMap) (obj : Obj)
    (bs : List Value) : Prop :=
  ∃ u spec, ToUnstructured obj = some u ∧ u.lookup "spec" = some (.map spec) ∧
    spec.lookup "roleBindings" = some (.slice bs)

/-- The contribution of one entry of `spec.roleBindings` to the result, as the
specification words it: a project view for an entry that is a map, decodes to
a bound subject, has a map field `roleRef` with a recognised string field
`name`, and has a string field `namespace`; nothing otherwise. -/
def projectOfEntry (toSubject : GoMap → Option Subject) (namespace_ : String)
    (userInfo : UserInfo) : Value → Option projectView
  | .map m =>
    match toSubject m, m.lookup "roleRef", m.lookup "namespace" with
    | some s, some (.map roleRef), some (.str ns) =>
      match roleRef.lookup "name" with
      | some (.str n) =>
        if isBoundUser s userInfo && isKubeVirtRole n then
          some { name := ns, cluster := namespace_ }
        else none
      | _ => none
    | _, _, _ => none
  | _ => none

/-- A subject decoder for the concrete examples: it reads the map field
`subject` of the binding and its string fields `kind` and `name`. -/
def exampleToSubject (binding : GoMap) : Option Subject :=
  match binding.lookup "subject" with
  | some (.map s) =>
    match s.lookup "kind", s.lookup "name" with
    | some (.str kind), some (.str name) =>
      some { Kind := kind, APIGroup := "", Name := name, Namespace := "" }
    | _, _ => none
  | _ => none

/-- A binding entry `{subject: {kind, name}, roleRef: {name: role}, namespace: ns}`. -/
def mkBinding (kind subjectName role ns : String) : Value :=
  .map [("subject", .map [("kind", .str kind), ("name", .str subjectName)]),
    ("roleRef", .map [("name", .str role)]), ("namespace", .str ns)]

/-- The attribute map `{spec: {roleBindings: bs}}`. -/
def mkCluster (bs : List Value) : GoMap :=
  [("spec", .map [("roleBindings", .slice bs)])]

/-- The identity `{name: "alice", groups: {"team-a"}}`. -/
def alice : UserInfo := { GetName := "alice", GetGroups := ["team-a"] }

/-- A binding entry is malformed, in the words of the specification: it is not
a map, or its subject cannot be extracted, or its `roleRef` is absent or not a
map, or the `name` of its `roleRef` is absent or not a string, or its
`namespace` is absent or not a string. -/
def malformedEntry (toSubject : GoMap → Option Subject) : Value → Prop
  | .map m =>
    toSubject m = none ∨
    (∀ roleRef, m.lookup "roleRef" ≠ some (.map roleRef)) ∨
    (∃ roleRef, m.lookup "roleRef" = some (.map roleRef) ∧
      ∀ n, roleRef.lookup "name" ≠ some (.str n)) ∨
    (∀ ns, m.lookup "namespace" ≠ some (.str ns))
  | _ => True

/-- A subject of kind `User` with the given name. -/
def mkUser (name : String) : Subject :=
  { Kind := "User", APIGroup := "rbac.authorization.k8s.io", Name := name, Namespace := "" }

/-! ## Matching primitives -/

theorem APIGroupMatches_loop_iff (g : String) (gs : List String) :
    APIGroupMatches.loop g gs = true ↔ "*" ∈ gs ∨ g ∈ gs := by
  induction gs with
  | nil => simp [APIGroupMatches.loop]
  | cons x xs ih =>
    simp only [APIGroupMatches.loop, APIGroupAll, beq_iff_eq, List.mem_cons]
    by_cases h1 : x = "*"
    · simp [h1]
    · by_cases h2 : x = g
      · simp [h2]
      · have h1' : ¬ "*" = x := fun h => h1 h.symm
        have h2' : ¬ g = x := fun h => h2 h.symm
        simp [h1, h2, h1', h2', ih]

theorem VerbMatches_iff (rule : PolicyRule) (v : String) :
    VerbMatches rule v = true ↔ v ∈ rule.Verbs := by
  unfold VerbMatches
  induction rule.Verbs with
  | nil => simp [VerbMatches.loop]
  | cons x xs ih =>
    simp only [VerbMatches.loop, beq_iff_eq, List.mem_cons]
    by_cases h : x = v
    · simp [h]
    · have h' : ¬ v = x := fun e => h e.symm
      simp [h, h', ih]

theorem len_eq_zero_iff (s : String) : len s = 0 ↔ s = "" := by
  constructor
  · intro h
    apply String.ext
    exact List.length_eq_zero.1 h
  · rintro rfl; rfl

theorem star_slash_pattern_iff (r sub : String) :
    (len r = len sub + 2 ∧ HasPrefix r "*/" = true ∧ HasSuffix r sub = true) ↔
      r = "*/" ++ sub := by
  have hd : ("*/" : String).data = ['*', '/'] := rfl
  constructor
  · rintro ⟨hl, hp, hs⟩
    simp only [HasPrefix, HasSuffix, List.isPrefixOf_iff_prefix,
      List.isSuffixOf_iff_suffix, len, hd] at hl hp hs
    obtain ⟨t, ht⟩ := hp
    apply String.ext
    rw [String.data_append, hd, ← ht]
    have hlen : t.length = sub.data.length := by
      have := congrArg List.length ht
      simp only [List.length_append, List.length_cons, List.length_nil] at this
      omega
    have h1 : t <:+ r.data := ⟨['*', '/'], ht⟩
    have h2 : t <:+ sub.data :=
      List.suffix_of_suffix_length_le h1 hs (by omega)
    rw [h2.eq_of_length hlen]
  · rintro rfl
    refine ⟨?_, ?_, ?_⟩
    · simp only [len, String.data_append, List.length_append, hd, List.length_cons,
        List.length_nil]
      omega
    · simp only [HasPrefix, String.data_append, List.isPrefixOf_iff_prefix]
      exact List.prefix_append _ _
    · simp only [HasSuffix, String.data_append, List.isSuffixOf_iff_suffix]
      exact List.suffix_append _ _

theorem ResourceMatches_loop_iff (res sub : String) (rs : List String) :
    ResourceMatches.loop res sub rs = true ↔
      ∃ r ∈ rs, r = "*" ∨ r = res ∨ (sub ≠ "" ∧ r = "*/" ++ sub) := by
  induction rs with
  | nil => simp [ResourceMatches.loop]
  | cons x xs ih =>
    rw [List.exists_mem_cons_iff, ← ih]
    simp only [ResourceMatches.loop, ResourceAll, beq_iff_eq]
    by_cases h1 : x = "*"
    · simp [h1]
    · by_cases h2 : x = res
      · simp [h2]
      · rw [if_neg h1, if_neg h2]
        by_cases h3 : sub = ""
        · rw [if_pos ((len_eq_zero_iff sub).2 h3)]
          simp [h1, h2, h3]
        · rw [if_neg (fun h => h3 ((len_eq_zero_iff sub).1 h))]
          by_cases h4 : x = "*/" ++ sub
          · have h5 := (star_slash_pattern_iff x sub).2 h4
            have h6 : (len x == len sub + 2 && HasPrefix x "*/" && HasSuffix x sub) = true := by
              simp [h5.1, h5.2.1, h5.2.2]
            rw [if_pos h6]
            simp [h3, h4]
          · have h6 : ¬ (len x == len sub + 2 && HasPrefix x "*/" && HasSuffix x sub) = true := by
              intro h
              simp only [Bool.and_eq_true, beq_iff_eq] at h
              exact h4 ((star_slash_pattern_iff x sub).1 ⟨h.1.1, h.1.2, h.2⟩)
            rw [if_neg h6]
            simp [h1, h2, h4]

/-! ## The aggregation loops -/

theorem viewVerbsOk_iff (rule : PolicyRule) : viewVerbsOk rule = true ↔ viewVerbs rule := by
  simp [viewVerbsOk, viewVerbs, VerbMatches_iff, or_assoc]

theorem adminVerbsOk_iff (rule : PolicyRule) : adminVerbsOk rule = true ↔ adminVerbs rule := by
  simp [adminVerbsOk, adminVerbs, VerbMatches_iff]

theorem view_loop_eq_aggregate (g res : String) (rules : List PolicyRule)
    (names : Finset String) :
    GetViewResourceFromClusterRole.loop g res rules names =
      aggregate viewVerbsOk g res rules names := by
  induction rules generalizing names with
  | nil => rfl
  | cons rule rest ih =>
    have hb : ∀ a b c : Bool, (!a && !b && !c) = !(a || b || c) := by decide
    simp only [GetViewResourceFromClusterRole.loop, aggregate, viewVerbsOk, ih, hb]

theorem admin_loop_eq_aggregate (g res : String) (rules : List PolicyRule)
    (names : Finset String) :
    GetAdminResourceFromClusterRole.loop g res rules names =
      aggregate adminVerbsOk g res rules names := by
  induction rules generalizing names with
  | nil => rfl
  | cons rule rest ih =>
    have hb : ∀ a b : Bool, (!a && !b) = !(a || b) := by decide
    simp only [GetAdminResourceFromClusterRole.loop, aggregate, adminVerbsOk, ih, hb]

theorem view_eq_aggregate (role : ClusterRole) (g res : String) :
    GetViewResourceFromClusterRole role g res = aggregate viewVerbsOk g res role.Rules ∅ :=
  view_loop_eq_aggregate g res role.Rules ∅

theorem admin_eq_aggregate (role : ClusterRole) (g res : String) :
    GetAdminResourceFromClusterRole role g res = aggregate adminVerbsOk g res role.Rules ∅ :=
  admin_loop_eq_aggregate g res role.Rules ∅

/-- One unfolding of `aggregate` on a rule that fails the group or verb test. -/
theorem aggregate_cons_skip (vp : PolicyRule → Bool) (g res : String) (rule : PolicyRule)
    (rest : List PolicyRule) (names : Finset String)
    (h : ¬ (APIGroupMatches rule g = true ∧ vp rule = true)) :
    aggregate vp g res (rule :: rest) names = aggregate vp g res rest names := by
  simp only [aggregate]
  cases hg : APIGroupMatches rule g <;> cases hv : vp rule <;> simp_all

/-- One unfolding of `aggregate` on an unrestricted rule passing both tests. -/
theorem aggregate_cons_all (vp : PolicyRule → Bool) (g res : String) (rule : PolicyRule)
    (rest : List PolicyRule) (names : Finset String)
    (hg : APIGroupMatches rule g = true) (hv : vp rule = true)
    (hn : rule.ResourceNames = []) :
    aggregate vp g res (rule :: rest) names = (names, true) := by
  simp [aggregate, hg, hv, hn]

/-- One unfolding of `aggregate` on a named rule passing both tests. -/
theorem aggregate_cons_named (vp : PolicyRule → Bool) (g res : String) (rule : PolicyRule)
    (rest : List PolicyRule) (names : Finset String)
    (hg : APIGroupMatches rule g = true) (hv : vp rule = true)
    (hn : rule.ResourceNames ≠ []) :
    aggregate vp g res (rule :: rest) names =
      aggregate vp g res rest
        (if ResourceMatches rule res "" = true then names ∪ rule.ResourceNames.toFinset
          else names) := by
  have hl : ¬ rule.ResourceNames.length = 0 := fun h => hn (List.length_eq_zero.1 h)
  simp only [aggregate, hg, hv, Bool.not_true, Bool.false_eq_true, if_false, beq_iff_eq, hl]
  cases ResourceMatches rule res "" <;> simp

theorem aggregate_all_iff (vp : PolicyRule → Bool) (g res : String) (rules : List PolicyRule)
    (names : Finset String) :
    (aggregate vp g res rules names).2 = true ↔
      ∃ r ∈ rules, APIGroupMatches r g = true ∧ vp r = true ∧ r.ResourceNames = [] := by
  induction rules generalizing names with
  | nil => simp [aggregate]
  | cons rule rest ih =>
    rw [List.exists_mem_cons_iff]
    by_cases h : APIGroupMatches rule g = true ∧ vp rule = true
    · by_cases hn : rule.ResourceNames = []
      · rw [aggregate_cons_all vp g res rule rest names h.1 h.2 hn]
        simp [h.1, h.2, hn]
      · rw [aggregate_cons_named vp g res rule rest names h.1 h.2 hn, ih]
        simp [hn]
    · rw [aggregate_cons_skip vp g res rule rest names h, ih]
      constructor
      · exact Or.inr
      · rintro (⟨h1, h2, _⟩ | h')
        · exact absurd ⟨h1, h2⟩ h
        · exact h'

theorem aggregate_names_of_not_all (vp : PolicyRule → Bool) (g res : String)
    (rules : List PolicyRule) (names : Finset String)
    (hall : (aggregate vp g res rules names).2 = false) (n : String) :
    n ∈ (aggregate vp g res rules names).1 ↔
      n ∈ names ∨ ∃ r ∈ rules, APIGroupMatches r g = true ∧ vp r = true ∧
        ResourceMatches r res "" = true ∧ n ∈ r.ResourceNames := by
  induction rules generalizing names with
  | nil => simp [aggregate]
  | cons rule rest ih =>
    rw [List.exists_mem_cons_iff]
    by_cases h : APIGroupMatches rule g = true ∧ vp rule = true
    · by_cases hn : rule.ResourceNames = []
      · rw [aggregate_cons_all vp g res rule rest names h.1 h.2 hn] at hall
        simp at hall
      · rw [aggregate_cons_named vp g res rule rest names h.1 h.2 hn] at hall ⊢
        rw [ih _ hall]
        by_cases hr : ResourceMatches rule res "" = true
        · simp only [hr, if_true, Finset.mem_union, List.mem_toFinset, h.1, h.2, true_and]
          tauto
        · simp [hr]
    · rw [aggregate_cons_skip vp g res rule rest names h] at hall ⊢
      rw [ih _ hall]
      have : ¬ (APIGroupMatches rule g = true ∧ vp rule = true ∧
          ResourceMatches rule res "" = true ∧ n ∈ rule.ResourceNames) :=
        fun h' => h ⟨h'.1, h'.2.1⟩
      simp only [this, false_or]

theorem aggregate_split_of_all (vp : PolicyRule → Bool) (g res : String)
    (rules : List PolicyRule) (names : Finset String)
    (hall : (aggregate vp g res rules names).2 = true) :
    ∃ pre r post, rules = pre ++ r :: post ∧
      APIGroupMatches r g = true ∧ vp r = true ∧ r.ResourceNames = [] ∧
      (∀ q ∈ pre, APIGroupMatches q g = true → vp q = true → q.ResourceNames ≠ []) ∧
      ∀ n, n ∈ (aggregate vp g res rules names).1 ↔
        n ∈ names ∨ ∃ q ∈ pre, APIGroupMatches q g = true ∧ vp q = true ∧
          ResourceMatches q res "" = true ∧ n ∈ q.ResourceNames := by
  induction rules generalizing names with
  | nil => simp [aggregate] at hall
  | cons rule rest ih =>
    by_cases h : APIGroupMatches rule g = true ∧ vp rule = true
    · by_cases hn : rule.ResourceNames = []
      · refine ⟨[], rule, rest, rfl, h.1, h.2, hn, by simp, ?_⟩
        rw [aggregate_cons_all vp g res rule rest names h.1 h.2 hn]
        simp
      · rw [aggregate_cons_named vp g res rule rest names h.1 h.2 hn] at hall ⊢
        obtain ⟨pre, r, post, hsplit, hg, hv, hr, hpre, hnames⟩ := ih _ hall
        refine ⟨rule :: pre, r, post, by rw [hsplit]; rfl, hg, hv, hr, ?_, ?_⟩
        · intro q hq
          rcases List.mem_cons.1 hq with rfl | hq
          · exact fun _ _ => hn
          · exact hpre q hq
        intro n
        rw [hnames n, List.exists_mem_cons_iff]
        by_cases hres : ResourceMatches rule res "" = true
        · simp only [hres, if_true, Finset.mem_union, List.mem_toFinset, h.1, h.2, true_and]
          tauto
        · simp [hres]
    · rw [aggregate_cons_skip vp g res rule rest names h] at hall ⊢
      obtain ⟨pre, r, post, hsplit, hg, hv, hr, hpre, hnames⟩ := ih _ hall
      refine ⟨rule :: pre, r, post, by rw [hsplit]; rfl, hg, hv, hr, ?_, ?_⟩
      · intro q hq
        rcases List.mem_cons.1 hq with rfl | hq
        · exact fun h1 h2 => absurd ⟨h1, h2⟩ h
        · exact hpre q hq
      intro n
      rw [hnames n, List.exists_mem_cons_iff]
      have : ¬ (APIGroupMatches rule g = true ∧ vp rule = true ∧
          ResourceMatches rule res "" = true ∧ n ∈ rule.ResourceNames) :=
        fun h' => h ⟨h'.1, h'.2.1⟩
      simp only [this, false_or]

theorem aggregate_of_no_match (vp : PolicyRule → Bool) (g res : String)
    (rules : List PolicyRule) (names : Finset String)
    (h : ∀ r ∈ rules, ¬ (APIGroupMatches r g = true ∧ vp r = true)) :
    aggregate vp g res rules names = (names, false) := by
  induction rules with
  | nil => rfl
  | cons rule rest ih =>
    rw [aggregate_cons_skip vp g res rule rest names (h rule (List.mem_cons_self _ _))]
    exact ih (fun r hr => h r (List.mem_cons_of_mem _ hr))

/-! ## The project resolver -/

theorem NestedFieldNoCopy_single (m : GoMap) (k : String) :
    NestedFieldNoCopy m [k] =
      match m.lookup k with
      | some v => .found v
      | none => .absent := by
  simp only [NestedFieldNoCopy, NestedFieldNoCopy.loop]

theorem NestedMap_found_iff (m : GoMap) (k : String) (r : GoMap) :
    NestedMap m [k] = .found r ↔ m.lookup k = some (.map r) := by
  rw [NestedMap, NestedFieldNoCopy_single]
  cases h : m.lookup k with
  | none => simp
  | some v => cases v <;> simp

theorem NestedString_found_iff (m : GoMap) (k : String) (s : String) :
    NestedString m [k] = .found s ↔ m.lookup k = some (.str s) := by
  rw [NestedString, NestedFieldNoCopy_single]
  cases h : m.lookup k with
  | none => simp
  | some v => cases v <;> simp

theorem NestedSlice_found_iff (u : GoMap) (bs : List Value) :
    NestedSlice u ["spec", "roleBindings"] = .found bs ↔
      ∃ spec, u.lookup "spec" = some (.map spec) ∧
        spec.lookup "roleBindings" = some (.slice bs) := by
  simp only [NestedSlice, NestedFieldNoCopy, NestedFieldNoCopy.loop]
  cases h : u.lookup "spec" with
  | none => simp
  | some v =>
    cases v with
    | map spec =>
      simp only [NestedFieldNoCopy.loop, Option.some.injEq, Value.map.injEq, exists_eq_left']
      cases h2 : spec.lookup "roleBindings" with
      | none => simp
      | some w => cases w <;> simp [NestedFieldNoCopy.loop]
    | _ => simp [NestedFieldNoCopy.loop]

theorem NestedMap_single (m : GoMap) (k : String) :
    NestedMap m [k] =
      match m.lookup k with
      | some (.map r) => .found r
      | some _ => .error
      | none => .absent := by
  rw [NestedMap, NestedFieldNoCopy_single]
  cases h : m.lookup k with
  | none => rfl
  | some v => cases v <;> rfl

theorem NestedString_single (m : GoMap) (k : String) :
    NestedString m [k] =
      match m.lookup k with
      | some (.str s) => .found s
      | some _ => .error
      | none => .absent := by
  rw [NestedString, NestedFieldNoCopy_single]
  cases h : m.lookup k with
  | none => rfl
  | some v => cases v <;> rfl

/-- One iteration of the loop of `listProjects` appends the contribution of
the entry, if any. -/
theorem listProjects_body_eq (toSubject : GoMap → Option Subject) (namespace_ : String)
    (userInfo : UserInfo) (projects : List projectView) (rb : Value) :
    listProjects.body toSubject namespace_ userInfo projects rb =
      projects ++ (projectOfEntry toSubject namespace_ userInfo rb).toList := by
  cases rb with
  | map m =>
    simp only [listProjects.body, projectOfEntry, NestedMap_single, NestedString_single]
    generalize toSubject m = a
    generalize List.lookup "roleRef" m = b
    generalize List.lookup "namespace" m = c
    rcases a with _ | s
    · simp
    · rcases b with _ | (_ | _ | _ | _ | _ | _ | roleRef) <;>
        rcases c with _ | (_ | _ | _ | _ | ns | _ | _) <;> try simp
      all_goals
        generalize List.lookup "name" roleRef = d
        rcases d with _ | (_ | _ | _ | _ | n | _ | _) <;> try simp
      all_goals
        cases isKubeVirtRole n <;> cases isBoundUser s userInfo <;> simp
  | _ => simp [listProjects.body, projectOfEntry]

theorem foldl_listProjects_body (toSubject : GoMap → Option Subject) (namespace_ : String)
    (userInfo : UserInfo) (bs : List Value) (projects : List projectView) :
    bs.foldl (listProjects.body toSubject namespace_ userInfo) projects =
      projects ++ bs.filterMap (projectOfEntry toSubject namespace_ userInfo) := by
  induction bs generalizing projects with
  | nil => simp
  | cons b rest ih =>
    rw [List.foldl_cons, ih, listProjects_body_eq, List.filterMap_cons]
    cases projectOfEntry toSubject namespace_ userInfo b <;> simp

theorem listProjects_of_hasRoleBindings {Obj : Type} (ToUnstructured : Obj → Option GoMap)
    (toSubject : GoMap → Option Subject) (namespace_ name : String) (obj : Obj)
    (userInfo : UserInfo) (bs : List Value)
    (h : hasRoleBindings ToUnstructured obj bs) :
    listProjects ToUnstructured toSubject namespace_ name obj userInfo =
      bs.filterMap (projectOfEntry toSubject namespace_ userInfo) := by
  obtain ⟨u, spec, hu, h1, h2⟩ := h
  have hs : NestedSlice u ["spec", "roleBindings"] = .found bs :=
    (NestedSlice_found_iff u bs).2 ⟨spec, h1, h2⟩
  simp only [listProjects, hu, hs, foldl_listProjects_body, List.nil_append]

theorem listProjects_eq_nil_or_hasRoleBindings {Obj : Type}
    (ToUnstructured : Obj → Option GoMap) (toSubject : GoMap → Option Subject)
    (namespace_ name : String) (obj : Obj) (userInfo : UserInfo) :
    listProjects ToUnstructured toSubject namespace_ name obj userInfo = [] ∨
      ∃ bs, hasRoleBindings ToUnstructured obj bs := by
  cases hu : ToUnstructured obj with
  | none => left; simp [listProjects, hu]
  | some u =>
    cases hs : NestedSlice u ["spec", "roleBindings"] with
    | found bs =>
      right
      obtain ⟨spec, h1, h2⟩ := (NestedSlice_found_iff u bs).1 hs
      exact ⟨bs, u, spec, hu, h1, h2⟩
    | absent => left; simp [listProjects, hu, hs]
    | error => left; simp [listProjects, hu, hs]

theorem projectOfEntry_eq_some_iff (toSubject : GoMap → Option Subject) (namespace_ : String)
    (userInfo : UserInfo) (e : Value) (pv : projectView) :
    projectOfEntry toSubject namespace_ userInfo e = some pv ↔
      ∃ m s roleRef n ns, e = .map m ∧ toSubject m = some s ∧
        isBoundUser s userInfo = true ∧ m.lookup "roleRef" = some (.map roleRef) ∧
        roleRef.lookup "name" = some (.str n) ∧ isKubeVirtRole n = true ∧
        m.lookup "namespace" = some (.str ns) ∧
        pv = { name := ns, cluster := namespace_ } := by
  cases e with
  | map m =>
    simp only [projectOfEntry, Value.map.injEq, exists_and_left, exists_eq_left']
    generalize toSubject m = a
    generalize List.lookup "roleRef" m = b
    generalize List.lookup "namespace" m = c
    rcases a with _ | s
    · simp
    · rcases b with _ | (_ | _ | _ | _ | _ | _ | roleRef) <;>
        rcases c with _ | (_ | _ | _ | _ | ns | _ | _) <;> try simp
      all_goals
        generalize List.lookup "name" roleRef = d
        rcases d with _ | (_ | _ | _ | _ | n | _ | _) <;> try simp
      all_goals
        cases isKubeVirtRole n <;> cases isBoundUser s userInfo <;> simp [eq_comm]
  | _ => simp [projectOfEntry]

/-! ## Claims on `listProjects` -/

/-- C1: when `spec.roleBindings` of the converted object is the sequence `bs`,
`listProjects` is the in-order filter-map of `bs` by `projectOfEntry`, where an
entry contributes `projectView{name: ns, cluster: namespace}` exactly when it
is a map on which `toSubject` succeeds with a subject bound to the user, that
has a map field `roleRef` with a string field `name` accepted by
`isKubeVirtRole`, and a string field `namespace` equal to `ns`; every other
entry contributes nothing. Every returned view carries the `namespace`
argument as its cluster, and the `name` argument has no effect. -/
theorem listProjects_eq_filterMap {Obj : Type} (ToUnstructured : Obj → Option GoMap)
    (toSubject : GoMap → Option Subject) (namespace_ name : String) (obj : Obj)
    (userInfo : UserInfo) (bs : List Value)
    (h : hasRoleBindings ToUnstructured obj bs) :
    listProjects ToUnstructured toSubject namespace_ name obj userInfo =
        bs.filterMap (projectOfEntry toSubject namespace_ userInfo) ∧
    (∀ e pv, projectOfEntry toSubject namespace_ userInfo e = some pv ↔
      ∃ m s roleRef n ns, e = .map m ∧ toSubject m = some s ∧
        isBoundUser s userInfo = true ∧ m.lookup "roleRef" = some (.map roleRef) ∧
        roleRef.lookup "name" = some (.str n) ∧ isKubeVirtRole n = true ∧
        m.lookup "namespace" = some (.str ns) ∧
        pv = { name := ns, cluster := namespace_ }) ∧
    (∀ pv ∈ listProjects ToUnstructured toSubject namespace_ name obj userInfo,
      pv.cluster = namespace_) ∧
    (∀ name2, listProjects ToUnstructured toSubject namespace_ name2 obj userInfo =
      listProjects ToUnstructured toSubject namespace_ name obj userInfo) := by
  refine ⟨listProjects_of_hasRoleBindings _ _ _ _ _ _ _ h,
    projectOfEntry_eq_some_iff toSubject namespace_ userInfo, ?_, fun name2 => ?_⟩
  · intro pv hpv
    rw [listProjects_of_hasRoleBindings _ _ _ _ _ _ _ h, List.mem_filterMap] at hpv
    obtain ⟨e, _, he⟩ := hpv
    obtain ⟨m, s, roleRef, n, ns, -, -, -, -, -, -, -, rfl⟩ :=
      (projectOfEntry_eq_some_iff toSubject namespace_ userInfo e pv).1 he
    rfl
  · rw [listProjects_of_hasRoleBindings _ _ _ name2 _ _ _ h,
      listProjects_of_hasRoleBindings _ _ _ name _ _ _ h]

/-- C1 at the object of P5: the group binding of `team-a` to
`kubevirt.io:edit` in `ns1` makes `ns1` visible to `alice` in `clusterX`. -/
theorem listProjects_eq_filterMap_witness :
    hasRoleBindings some (mkCluster [mkBinding "Group" "team-a" "kubevirt.io:edit" "ns1"])
        [mkBinding "Group" "team-a" "kubevirt.io:edit" "ns1"] ∧
    listProjects some exampleToSubject "clusterX" "cluster-x"
        (mkCluster [mkBinding "Group" "team-a" "kubevirt.io:edit" "ns1"]) alice =
      [mkBinding "Group" "team-a" "kubevirt.io:edit" "ns1"].filterMap
        (projectOfEntry exampleToSubject "clusterX" alice) ∧
    listProjects some exampleToSubject "clusterX" "cluster-x"
        (mkCluster [mkBinding "Group" "team-a" "kubevirt.io:edit" "ns1"]) alice =
      [{ name := "ns1", cluster := "clusterX" }] :=
  ⟨⟨_, _, rfl, rfl, rfl⟩,
    (listProjects_eq_filterMap some exampleToSubject "clusterX" "cluster-x"
      (mkCluster [mkBinding "Group" "team-a" "kubevirt.io:edit" "ns1"]) alice
      [mkBinding "Group" "team-a" "kubevirt.io:edit" "ns1"] ⟨_, _, rfl, rfl, rfl⟩).1,
    by decide⟩

/-! ## Claims on the rule matcher -/

/-- C2 (defect of the code): on the role whose only rule is
`{apiGroups ["*"], resources ["pods"], verbs ["get"], resourceNames []}`,
`GetViewResourceFromClusterRole` asked about resource `nodes` returns
`allNames = true`, although no rule of the role matches the resource `nodes`:
the test on empty `resourceNames` returns before `ResourceMatches` is
consulted. -/
theorem GetViewResourceFromClusterRole_all_ignores_resource :
    GetViewResourceFromClusterRole ⟨[mkRule ["get"] ["pods"] []]⟩ "" "nodes" = (∅, true) ∧
      ResourceMatches (mkRule ["get"] ["pods"] []) "nodes" "" = false ∧
      ¬ ∃ rule ∈ (ClusterRole.mk [mkRule ["get"] ["pods"] []]).Rules,
          APIGroupMatches rule "" = true ∧ viewVerbs rule ∧
            ResourceMatches rule "nodes" "" = true ∧ rule.ResourceNames = [] := by
  decide

/-- C3: whenever `GetViewResourceFromClusterRole` returns `allNames = false`,
a name belongs to the returned set exactly when it is a resource name of some
rule of the role that matches the API group, has `get`, `list` or `*` among
its verbs and matches the resource; likewise for
`GetAdminResourceFromClusterRole` with the admin verb test. -/
theorem names_eq_union_of_matching_rules (role : ClusterRole) (group resource : String) :
    ((GetViewResourceFromClusterRole role group resource).2 = false →
      ∀ n, n ∈ (GetViewResourceFromClusterRole role group resource).1 ↔
        ∃ rule ∈ role.Rules, APIGroupMatches rule group = true ∧ viewVerbs rule ∧
          ResourceMatches rule resource "" = true ∧ n ∈ rule.ResourceNames) ∧
    ((GetAdminResourceFromClusterRole role group resource).2 = false →
      ∀ n, n ∈ (GetAdminResourceFromClusterRole role group resource).1 ↔
        ∃ rule ∈ role.Rules, APIGroupMatches rule group = true ∧ adminVerbs rule ∧
          ResourceMatches rule resource "" = true ∧ n ∈ rule.ResourceNames) := by
  constructor
  · intro h n
    rw [view_eq_aggregate] at h ⊢
    rw [aggregate_names_of_not_all _ _ _ _ _ h n]
    simp [viewVerbsOk_iff]
  · intro h n
    rw [admin_eq_aggregate] at h ⊢
    rw [aggregate_names_of_not_all _ _ _ _ _ h n]
    simp [adminVerbsOk_iff]

/-- C3 at a concrete role of four named rules queried for `pods`: the third
rule misses the resource and the fourth has `update` alone, so the view names
are `a`, `b`, `c`; only the second rule passes the admin verb test, so the
admin names are `b`, `c`. -/
theorem names_eq_union_of_matching_rules_witness :
    (GetViewResourceFromClusterRole
        ⟨[mkRule ["get"] ["pods"] ["a"], mkRule ["list", "update"] ["*"] ["b", "c"],
          mkRule ["get"] ["nodes"] ["d"], mkRule ["update"] ["pods"] ["e"]]⟩ "" "pods").2 = false ∧
    (GetAdminResourceFromClusterRole
        ⟨[mkRule ["get"] ["pods"] ["a"], mkRule ["list", "update"] ["*"] ["b", "c"],
          mkRule ["get"] ["nodes"] ["d"], mkRule ["update"] ["pods"] ["e"]]⟩ "" "pods").2 = false ∧
    (∀ n, n ∈ (GetViewResourceFromClusterRole
        ⟨[mkRule ["get"] ["pods"] ["a"], mkRule ["list", "update"] ["*"] ["b", "c"],
          mkRule ["get"] ["nodes"] ["d"], mkRule ["update"] ["pods"] ["e"]]⟩ "" "pods").1 ↔
        ∃ rule ∈ (ClusterRole.mk [mkRule ["get"] ["pods"] ["a"],
            mkRule ["list", "update"] ["*"] ["b", "c"],
            mkRule ["get"] ["nodes"] ["d"], mkRule ["update"] ["pods"] ["e"]]).Rules,
          APIGroupMatches rule "" = true ∧ viewVerbs rule ∧
            ResourceMatches rule "pods" "" = true ∧ n ∈ rule.ResourceNames) ∧
    (∀ n, n ∈ (GetAdminResourceFromClusterRole
        ⟨[mkRule ["get"] ["pods"] ["a"], mkRule ["list", "update"] ["*"] ["b", "c"],
          mkRule ["get"] ["nodes"] ["d"], mkRule ["update"] ["pods"] ["e"]]⟩ "" "pods").1 ↔
        ∃ rule ∈ (ClusterRole.mk [mkRule ["get"] ["pods"] ["a"],
            mkRule ["list", "update"] ["*"] ["b", "c"],
            mkRule ["get"] ["nodes"] ["d"], mkRule ["update"] ["pods"] ["e"]]).Rules,
          APIGroupMatches rule "" = true ∧ adminVerbs rule ∧
            ResourceMatches rule "pods" "" = true ∧ n ∈ rule.ResourceNames) ∧
    GetViewResourceFromClusterRole
        ⟨[mkRule ["get"] ["pods"] ["a"], mkRule ["list", "update"] ["*"] ["b", "c"],
          mkRule ["get"] ["nodes"] ["d"], mkRule ["update"] ["pods"] ["e"]]⟩ "" "pods" =
      ({"a", "b", "c"}, false) ∧
    GetAdminResourceFromClusterRole
        ⟨[mkRule ["get"] ["pods"] ["a"], mkRule ["list", "update"] ["*"] ["b", "c"],
          mkRule ["get"] ["nodes"] ["d"], mkRule ["update"] ["pods"] ["e"]]⟩ "" "pods" =
      ({"b", "c"}, false) :=
  ⟨by decide, by decide,
    (names_eq_union_of_matching_rules _ "" "pods").1 (by decide),
    (names_eq_union_of_matching_rules _ "" "pods").2 (by decide), by decide, by decide⟩

/-- C4 as stated fails: on the rules
`[{verbs ["get"], resources ["pods"], resourceNames ["a"]},
  {verbs ["get"], resources ["pods"], resourceNames []}]`
the view aggregation returns `allNames = true` together with the names `{a}`
collected from the first rule. -/
theorem names_not_empty_when_all :
    ¬ ((GetViewResourceFromClusterRole
          ⟨[mkRule ["get"] ["pods"] ["a"], mkRule ["get"] ["pods"] []]⟩ "" "pods").2 = true →
        (GetViewResourceFromClusterRole
          ⟨[mkRule ["get"] ["pods"] ["a"], mkRule ["get"] ["pods"] []]⟩ "" "pods").1 = ∅) := by
  decide

/-- C4, amended: whenever `GetViewResourceFromClusterRole` returns
`allNames = true`, the rule list splits as `pre ++ r :: post` around an
unrestricted rule `r` (empty `resourceNames`, matching the group and the verb
test) such that every rule of `pre` matching group and verbs is a named one,
and the returned names are exactly the resource names of the rules of `pre`
that match group, verbs and resource: names collected before `r` are kept.
Likewise for `GetAdminResourceFromClusterRole`. -/
theorem names_when_all (role : ClusterRole) (group resource : String) :
    ((GetViewResourceFromClusterRole role group resource).2 = true →
      ∃ pre r post, role.Rules = pre ++ r :: post ∧
        APIGroupMatches r group = true ∧ viewVerbs r ∧ r.ResourceNames = [] ∧
        (∀ q ∈ pre, APIGroupMatches q group = true → viewVerbs q → q.ResourceNames ≠ []) ∧
        ∀ n, n ∈ (GetViewResourceFromClusterRole role group resource).1 ↔
          ∃ q ∈ pre, APIGroupMatches q group = true ∧ viewVerbs q ∧
            ResourceMatches q resource "" = true ∧ n ∈ q.ResourceNames) ∧
    ((GetAdminResourceFromClusterRole role group resource).2 = true →
      ∃ pre r post, role.Rules = pre ++ r :: post ∧
        APIGroupMatches r group = true ∧ adminVerbs r ∧ r.ResourceNames = [] ∧
        (∀ q ∈ pre, APIGroupMatches q group = true → adminVerbs q → q.ResourceNames ≠ []) ∧
        ∀ n, n ∈ (GetAdminResourceFromClusterRole role group resource).1 ↔
          ∃ q ∈ pre, APIGroupMatches q group = true ∧ adminVerbs q ∧
            ResourceMatches q resource "" = true ∧ n ∈ q.ResourceNames) := by
  constructor
  · intro h
    rw [view_eq_aggregate] at h ⊢
    obtain ⟨pre, r, post, hs, hg, hv, hr, hpre, hn⟩ := aggregate_split_of_all _ _ _ _ _ h
    refine ⟨pre, r, post, hs, hg, (viewVerbsOk_iff r).1 hv, hr,
      fun q hq h1 h2 => hpre q hq h1 ((viewVerbsOk_iff q).2 h2), fun n => ?_⟩
    rw [hn n]
    simp [viewVerbsOk_iff]
  · intro h
    rw [admin_eq_aggregate] at h ⊢
    obtain ⟨pre, r, post, hs, hg, hv, hr, hpre, hn⟩ := aggregate_split_of_all _ _ _ _ _ h
    refine ⟨pre, r, post, hs, hg, (adminVerbsOk_iff r).1 hv, hr,
      fun q hq h1 h2 => hpre q hq h1 ((adminVerbsOk_iff q).2 h2), fun n => ?_⟩
    rw [hn n]
    simp [adminVerbsOk_iff]

/-- C4, amended, at a concrete role: a named rule followed by an unrestricted
one yields `allNames = true` and the names of the named rule. -/
theorem names_when_all_witness :
    (GetViewResourceFromClusterRole
        ⟨[mkRule ["get", "update"] ["pods"] ["a"], mkRule ["get", "update"] ["pods"] []]⟩
        "" "pods").2 = true ∧
    (GetAdminResourceFromClusterRole
        ⟨[mkRule ["get", "update"] ["pods"] ["a"], mkRule ["get", "update"] ["pods"] []]⟩
        "" "pods").2 = true ∧
    (∃ pre r post,
        (ClusterRole.mk [mkRule ["get", "update"] ["pods"] ["a"],
          mkRule ["get", "update"] ["pods"] []]).Rules = pre ++ r :: post ∧
        APIGroupMatches r "" = true ∧ viewVerbs r ∧ r.ResourceNames = [] ∧
        (∀ q ∈ pre, APIGroupMatches q "" = true → viewVerbs q → q.ResourceNames ≠ []) ∧
        ∀ n, n ∈ (GetViewResourceFromClusterRole
            ⟨[mkRule ["get", "update"] ["pods"] ["a"], mkRule ["get", "update"] ["pods"] []]⟩
            "" "pods").1 ↔
          ∃ q ∈ pre, APIGroupMatches q "" = true ∧ viewVerbs q ∧
            ResourceMatches q "pods" "" = true ∧ n ∈ q.ResourceNames) ∧
    (∃ pre r post,
        (ClusterRole.mk [mkRule ["get", "update"] ["pods"] ["a"],
          mkRule ["get", "update"] ["pods"] []]).Rules = pre ++ r :: post ∧
        APIGroupMatches r "" = true ∧ adminVerbs r ∧ r.ResourceNames = [] ∧
        (∀ q ∈ pre, APIGroupMatches q "" = true → adminVerbs q → q.ResourceNames ≠ []) ∧
        ∀ n, n ∈ (GetAdminResourceFromClusterRole
            ⟨[mkRule ["get", "update"] ["pods"] ["a"], mkRule ["get", "update"] ["pods"] []]⟩
            "" "pods").1 ↔
          ∃ q ∈ pre, APIGroupMatches q "" = true ∧ adminVerbs q ∧
            ResourceMatches q "pods" "" = true ∧ n ∈ q.ResourceNames) :=
  ⟨by decide, by decide,
    (names_when_all _ "" "pods").1 (by decide),
    (names_when_all _ "" "pods").2 (by decide)⟩

/-- C5: if no single rule of the role has (`update` and (`get` or `list`)) or
`*` among its verbs, `GetAdminResourceFromClusterRole` returns the empty name
set and `allNames = false` for every group and resource. -/
theorem GetAdminResourceFromClusterRole_of_no_admin_rule (role : ClusterRole)
    (h : ∀ rule ∈ role.Rules, ¬ adminVerbs rule) (group resource : String) :
    GetAdminResourceFromClusterRole role group resource = (∅, false) := by
  rw [admin_eq_aggregate]
  exact aggregate_of_no_match _ _ _ _ _
    (fun r hr hm => h r hr ((adminVerbsOk_iff r).1 hm.2))

/-- C5 at a concrete role: `update` in one rule and `get` in a different rule
grant no admin capability. -/
theorem GetAdminResourceFromClusterRole_of_no_admin_rule_witness :
    (∀ rule ∈ (ClusterRole.mk [mkRule ["update"] ["pods"] [],
        mkRule ["get"] ["pods"] []]).Rules, ¬ adminVerbs rule) ∧
    GetAdminResourceFromClusterRole
      ⟨[mkRule ["update"] ["pods"] [], mkRule ["get"] ["pods"] []]⟩ "" "pods" = (∅, false) :=
  ⟨by decide,
    GetAdminResourceFromClusterRole_of_no_admin_rule
      ⟨[mkRule ["update"] ["pods"] [], mkRule ["get"] ["pods"] []]⟩ (by decide) "" "pods"⟩

/-- C6: for a role made of one rule that matches the requested group and
resource, `GetAdminResourceFromClusterRole` grants admin (`allNames = true` or
a non-empty name set) exactly when the rule's verbs contain `*`, or `update`
together with `get` or `list`; when they do, the result is `(∅, true)` if the
rule has no resource names and `(its resource names, false)` otherwise, and
when they do not, the result is `(∅, false)`. -/
theorem GetAdminResourceFromClusterRole_single_rule (rule : PolicyRule)
    (group resource : String) (hg : APIGroupMatches rule group = true)
    (hr : ResourceMatches rule resource "" = true) :
    (((GetAdminResourceFromClusterRole ⟨[rule]⟩ group resource).2 = true ∨
        (GetAdminResourceFromClusterRole ⟨[rule]⟩ group resource).1.Nonempty) ↔
      adminVerbs rule) ∧
    (adminVerbs rule →
      GetAdminResourceFromClusterRole ⟨[rule]⟩ group resource =
        if rule.ResourceNames = [] then (∅, true)
        else (rule.ResourceNames.toFinset, false)) ∧
    (¬ adminVerbs rule →
      GetAdminResourceFromClusterRole ⟨[rule]⟩ group resource = (∅, false)) := by
  have hyes : adminVerbs rule →
      GetAdminResourceFromClusterRole ⟨[rule]⟩ group resource =
        if rule.ResourceNames = [] then (∅, true)
        else (rule.ResourceNames.toFinset, false) := by
    intro hv
    have hv' := (adminVerbsOk_iff rule).2 hv
    rw [admin_eq_aggregate]
    by_cases hn : rule.ResourceNames = []
    · rw [if_pos hn, aggregate_cons_all _ _ _ _ _ _ hg hv' hn]
    · rw [if_neg hn, aggregate_cons_named _ _ _ _ _ _ hg hv' hn, if_pos hr]
      simp [aggregate]
  have hno : ¬ adminVerbs rule →
      GetAdminResourceFromClusterRole ⟨[rule]⟩ group resource = (∅, false) := by
    intro hv
    rw [admin_eq_aggregate]
    exact aggregate_of_no_match _ _ _ _ _
      (fun r hm h => hv ((adminVerbsOk_iff rule).1 (by rw [List.mem_singleton.1 hm] at h; exact h.2)))
  refine ⟨?_, hyes, hno⟩
  by_cases hv : adminVerbs rule
  · rw [hyes hv]
    by_cases hn : rule.ResourceNames = []
    · simp [hn, hv]
    · obtain ⟨x, hx⟩ := List.exists_mem_of_ne_nil _ hn
      simp only [if_neg hn, hv, iff_true]
      exact Or.inr ⟨x, List.mem_toFinset.2 hx⟩
  · rw [hno hv]
    simp [hv]

/-- C6 at three concrete rules on `pods`: verbs `{update}` alone grant
nothing, `{update, get}` grant admin on every name, `{*}` restricted to the
name `a` grants admin on `a`. -/
theorem GetAdminResourceFromClusterRole_single_rule_witness :
    (APIGroupMatches (mkRule ["update"] ["pods"] []) "" = true ∧
      ResourceMatches (mkRule ["update"] ["pods"] []) "pods" "" = true ∧
      GetAdminResourceFromClusterRole ⟨[mkRule ["update"] ["pods"] []]⟩ "" "pods" =
        (∅, false)) ∧
    (APIGroupMatches (mkRule ["update", "get"] ["pods"] []) "" = true ∧
      ResourceMatches (mkRule ["update", "get"] ["pods"] []) "pods" "" = true ∧
      GetAdminResourceFromClusterRole ⟨[mkRule ["update", "get"] ["pods"] []]⟩ "" "pods" =
        (∅, true)) ∧
    (APIGroupMatches (mkRule ["*"] ["pods"] ["a"]) "" = true ∧
      ResourceMatches (mkRule ["*"] ["pods"] ["a"]) "pods" "" = true ∧
      GetAdminResourceFromClusterRole ⟨[mkRule ["*"] ["pods"] ["a"]]⟩ "" "pods" =
        ({"a"}, false)) :=
  ⟨⟨by decide, by decide,
      (GetAdminResourceFromClusterRole_single_rule (mkRule ["update"] ["pods"] []) "" "pods"
        (by decide) (by decide)).2.2 (by decide)⟩,
    ⟨by decide, by decide,
      (GetAdminResourceFromClusterRole_single_rule (mkRule ["update", "get"] ["pods"] [])
        "" "pods" (by decide) (by decide)).2.1 (by decide)⟩,
    ⟨by decide, by decide,
      (GetAdminResourceFromClusterRole_single_rule (mkRule ["*"] ["pods"] ["a"]) "" "pods"
        (by decide) (by decide)).2.1 (by decide)⟩⟩

/-- C7: `ResourceMatches` is true exactly when some entry `r` of
`rule.Resources` is `*`, or is the requested resource, or the requested
subresource is non-empty and `r` is `*/` followed by it. So resources
`{*/status}` match `pods` with subresource `status` and not with `scale`, and
resources `{pod/status}` do not match `pods` with subresource `status`. -/
theorem ResourceMatches_iff (rule : PolicyRule)
    (requestedResource requestedSubresource : String) :
    (ResourceMatches rule requestedResource requestedSubresource = true ↔
      ∃ r ∈ rule.Resources, r = "*" ∨ r = requestedResource ∨
        (requestedSubresource ≠ "" ∧ r = "*/" ++ requestedSubresource)) ∧
    (∀ v g n u, ResourceMatches ⟨v, g, ["*/status"], n, u⟩ "pods" "status" = true) ∧
    (∀ v g n u, ResourceMatches ⟨v, g, ["*/status"], n, u⟩ "pods" "scale" = false) ∧
    (∀ v g n u, ResourceMatches ⟨v, g, ["pod/status"], n, u⟩ "pods" "status" = false) :=
  ⟨ResourceMatches_loop_iff _ _ _,
    fun _ _ _ _ => (by decide : ResourceMatches.loop "pods" "status" ["*/status"] = true),
    fun _ _ _ _ => (by decide : ResourceMatches.loop "pods" "scale" ["*/status"] = false),
    fun _ _ _ _ => (by decide : ResourceMatches.loop "pods" "status" ["pod/status"] = false)⟩

/-! ## Claims on `isBoundUser`, `isKubeVirtRole` and the order of the result -/

/-- C8: `isBoundUser` is true exactly when the subject is of kind `Group` and
its name is among the user's groups, or of kind `User` and its name is the
user's name. A `ServiceAccount` subject is never bound; the user subject `bob`
is bound to the identity named `bob` and not to the identity named `bob2`. -/
theorem isBoundUser_iff :
    (∀ (subject : Subject) (userInfo : UserInfo),
      isBoundUser subject userInfo = true ↔
        (subject.Kind = "Group" ∧ subject.Name ∈ userInfo.GetGroups) ∨
        (subject.Kind = "User" ∧ subject.Name = userInfo.GetName)) ∧
    (∀ (apiGroup name ns : String) (userInfo : UserInfo),
      isBoundUser ⟨"ServiceAccount", apiGroup, name, ns⟩ userInfo = false) ∧
    (∀ (apiGroup ns : String) (groups : List String),
      isBoundUser ⟨"User", apiGroup, "bob", ns⟩ ⟨"bob", groups⟩ = true ∧
      isBoundUser ⟨"User", apiGroup, "bob", ns⟩ ⟨"bob2", groups⟩ = false) := by
  have key : ∀ (subject : Subject) (userInfo : UserInfo),
      isBoundUser subject userInfo = true ↔
        (subject.Kind = "Group" ∧ subject.Name ∈ userInfo.GetGroups) ∨
        (subject.Kind = "User" ∧ subject.Name = userInfo.GetName) := by
    intro subject userInfo
    simp only [isBoundUser, GroupKind, UserKind, beq_iff_eq]
    by_cases h1 : subject.Kind = "Group"
    · have h2 : ¬ subject.Kind = "User" := by rw [h1]; decide
      simp [h1]
    · by_cases h2 : subject.Kind = "User"
      · simp [h2]
      · simp [h1, h2]
  refine ⟨key, ?_, ?_⟩
  · intro apiGroup name ns userInfo
    have := key ⟨"ServiceAccount", apiGroup, name, ns⟩ userInfo
    simp at this
    simpa using this
  · intro apiGroup ns groups
    have h1 := key ⟨"User", apiGroup, "bob", ns⟩ ⟨"bob", groups⟩
    have h2 := key ⟨"User", apiGroup, "bob", ns⟩ ⟨"bob2", groups⟩
    simp at h1 h2
    exact ⟨h1, by simpa using h2⟩

/-- C9: `isKubeVirtRole` accepts exactly the three names `kubevirt.io:admin`,
`kubevirt.io:edit` and `kubevirt.io:view`; hence, for a cluster object none of
whose binding entries has one of these three strings as `roleRef.name`,
`listProjects` returns the empty sequence for every identity. -/
theorem isKubeVirtRole_iff_and_listProjects_nil {Obj : Type}
    (ToUnstructured : Obj → Option GoMap) (toSubject : GoMap → Option Subject)
    (namespace_ name : String) (obj : Obj)
    (h : ∀ bs, hasRoleBindings ToUnstructured obj bs →
      ∀ e ∈ bs, ∀ m roleRef n, e = .map m → m.lookup "roleRef" = some (.map roleRef) →
        roleRef.lookup "name" = some (.str n) →
        n ≠ "kubevirt.io:admin" ∧ n ≠ "kubevirt.io:edit" ∧ n ≠ "kubevirt.io:view") :
    (∀ n, isKubeVirtRole n = true ↔
      n = "kubevirt.io:admin" ∨ n = "kubevirt.io:edit" ∨ n = "kubevirt.io:view") ∧
    ∀ userInfo, listProjects ToUnstructured toSubject namespace_ name obj userInfo = [] := by
  have key : ∀ n, isKubeVirtRole n = true ↔
      n = "kubevirt.io:admin" ∨ n = "kubevirt.io:edit" ∨ n = "kubevirt.io:view" := by
    intro n
    simp [isKubeVirtRole, or_assoc]
  refine ⟨key, fun userInfo => ?_⟩
  rcases listProjects_eq_nil_or_hasRoleBindings ToUnstructured toSubject namespace_ name obj
    userInfo with h0 | ⟨bs, hbs⟩
  · exact h0
  · rw [listProjects_of_hasRoleBindings _ _ _ _ _ _ _ hbs, List.filterMap_eq_nil_iff]
    intro e he
    cases hp : projectOfEntry toSubject namespace_ userInfo e with
    | none => rfl
    | some pv =>
      obtain ⟨m, s, roleRef, n, ns, hm, -, -, hr, hn, hk, -, -⟩ :=
        (projectOfEntry_eq_some_iff toSubject namespace_ userInfo e pv).1 hp
      obtain ⟨n1, n2, n3⟩ := h bs hbs e he m roleRef n hm hr hn
      rcases (key n).1 hk with h' | h' | h'
      · exact absurd h' n1
      · exact absurd h' n2
      · exact absurd h' n3

/-- C9 at the object of P6: the binding of `team-a` to `custom:role` shows no
project to `alice`. -/
theorem isKubeVirtRole_iff_and_listProjects_nil_witness :
    (∀ bs, hasRoleBindings some (mkCluster [mkBinding "Group" "team-a" "custom:role" "ns1"]) bs →
      ∀ e ∈ bs, ∀ m roleRef n, e = .map m → m.lookup "roleRef" = some (.map roleRef) →
        roleRef.lookup "name" = some (.str n) →
        n ≠ "kubevirt.io:admin" ∧ n ≠ "kubevirt.io:edit" ∧ n ≠ "kubevirt.io:view") ∧
    listProjects some exampleToSubject "clusterX" "cluster-x"
      (mkCluster [mkBinding "Group" "team-a" "custom:role" "ns1"]) alice = [] := by
  have hyp : ∀ bs,
      hasRoleBindings some (mkCluster [mkBinding "Group" "team-a" "custom:role" "ns1"]) bs →
      ∀ e ∈ bs, ∀ m roleRef n, e = .map m → m.lookup "roleRef" = some (.map roleRef) →
        roleRef.lookup "name" = some (.str n) →
        n ≠ "kubevirt.io:admin" ∧ n ≠ "kubevirt.io:edit" ∧ n ≠ "kubevirt.io:view" := by
    rintro bs ⟨u, spec, hu, h1, h2⟩ e he m roleRef n hm hr hn
    cases hu
    have h1' : spec = [("roleBindings",
        Value.slice [mkBinding "Group" "team-a" "custom:role" "ns1"])] := by
      have : some (Value.map [("roleBindings",
          Value.slice [mkBinding "Group" "team-a" "custom:role" "ns1"])]) =
          some (Value.map spec) := h1
      injection this with this
      injection this with this
      exact this.symm
    subst h1'
    have h2' : bs = [mkBinding "Group" "team-a" "custom:role" "ns1"] := by
      have : some (Value.slice [mkBinding "Group" "team-a" "custom:role" "ns1"]) =
          some (Value.slice bs) := h2
      injection this with this
      injection this with this
      exact this.symm
    subst h2'
    rw [List.mem_singleton] at he
    subst he
    have hm' : m = [("subject", .map [("kind", .str "Group"), ("name", .str "team-a")]),
        ("roleRef", .map [("name", .str "custom:role")]), ("namespace", .str "ns1")] := by
      injection hm with hm
      exact hm.symm
    subst hm'
    have hr' : roleRef = [("name", .str "custom:role")] := by
      have : some (Value.map [("name", Value.str "custom:role")]) =
          some (Value.map roleRef) := hr
      injection this with this
      injection this with this
      exact this.symm
    subst hr'
    have hn' : n = "custom:role" := by
      have : some (Value.str "custom:role") = some (Value.str n) := hn
      injection this with this
      injection this with this
      exact this.symm
    subst hn'
    decide
  exact ⟨hyp,
    (isKubeVirtRole_iff_and_listProjects_nil some exampleToSubject "clusterX" "cluster-x"
      (mkCluster [mkBinding "Group" "team-a" "custom:role" "ns1"]) hyp).2 alice⟩

/-- C10: `listProjects` distributes over concatenation of the binding
sequence: for cluster objects whose `spec.roleBindings` are `bs1`, `bs2` and
`bs1 ++ bs2`, the result for the third is the result for the first followed by
the result for the second, for the same `namespace` argument and identity. -/
theorem listProjects_append {Obj : Type} (ToUnstructured : Obj → Option GoMap)
    (toSubject : GoMap → Option Subject) (namespace_ name : String)
    (obj1 obj2 obj12 : Obj) (userInfo : UserInfo) (bs1 bs2 : List Value)
    (h1 : hasRoleBindings ToUnstructured obj1 bs1)
    (h2 : hasRoleBindings ToUnstructured obj2 bs2)
    (h12 : hasRoleBindings ToUnstructured obj12 (bs1 ++ bs2)) :
    listProjects ToUnstructured toSubject namespace_ name obj12 userInfo =
      listProjects ToUnstructured toSubject namespace_ name obj1 userInfo ++
        listProjects ToUnstructured toSubject namespace_ name obj2 userInfo := by
  rw [listProjects_of_hasRoleBindings _ _ _ _ _ _ _ h1,
    listProjects_of_hasRoleBindings _ _ _ _ _ _ _ h2,
    listProjects_of_hasRoleBindings _ _ _ _ _ _ _ h12, List.filterMap_append]

/-- C10 at two bindings that grant `ns1` to `team-a` through different roles:
the result for both bindings is the two single results in order, two equal
project views. -/
theorem listProjects_append_witness :
    hasRoleBindings some (mkCluster [mkBinding "Group" "team-a" "kubevirt.io:edit" "ns1"])
        [mkBinding "Group" "team-a" "kubevirt.io:edit" "ns1"] ∧
    hasRoleBindings some (mkCluster [mkBinding "Group" "team-a" "kubevirt.io:view" "ns1"])
        [mkBinding "Group" "team-a" "kubevirt.io:view" "ns1"] ∧
    hasRoleBindings some
        (mkCluster [mkBinding "Group" "team-a" "kubevirt.io:edit" "ns1",
          mkBinding "Group" "team-a" "kubevirt.io:view" "ns1"])
        ([mkBinding "Group" "team-a" "kubevirt.io:edit" "ns1"] ++
          [mkBinding "Group" "team-a" "kubevirt.io:view" "ns1"]) ∧
    listProjects some exampleToSubject "clusterX" "cluster-x"
        (mkCluster [mkBinding "Group" "team-a" "kubevirt.io:edit" "ns1",
          mkBinding "Group" "team-a" "kubevirt.io:view" "ns1"]) alice =
      listProjects some exampleToSubject "clusterX" "cluster-x"
          (mkCluster [mkBinding "Group" "team-a" "kubevirt.io:edit" "ns1"]) alice ++
        listProjects some exampleToSubject "clusterX" "cluster-x"
          (mkCluster [mkBinding "Group" "team-a" "kubevirt.io:view" "ns1"]) alice ∧
    listProjects some exampleToSubject "clusterX" "cluster-x"
        (mkCluster [mkBinding "Group" "team-a" "kubevirt.io:edit" "ns1",
          mkBinding "Group" "team-a" "kubevirt.io:view" "ns1"]) alice =
      [{ name := "ns1", cluster := "clusterX" }, { name := "ns1", cluster := "clusterX" }] :=
  ⟨⟨_, _, rfl, rfl, rfl⟩, ⟨_, _, rfl, rfl, rfl⟩, ⟨_, _, rfl, rfl, rfl⟩,
    listProjects_append some exampleToSubject "clusterX" "cluster-x" _ _ _ alice _ _
      ⟨_, _, rfl, rfl, rfl⟩ ⟨_, _, rfl, rfl, rfl⟩ ⟨_, _, rfl, rfl, rfl⟩,
    by decide⟩

/-! ## Malformed entries and missing bindings -/

theorem projectOfEntry_of_malformed (toSubject : GoMap → Option Subject) (namespace_ : String)
    (userInfo : UserInfo) (e : Value) (h : malformedEntry toSubject e) :
    projectOfEntry toSubject namespace_ userInfo e = none := by
  cases hp : projectOfEntry toSubject namespace_ userInfo e with
  | none => rfl
  | some pv =>
    obtain ⟨m, s, roleRef, n, ns, rfl, hs, -, hr, hn, -, hns, -⟩ :=
      (projectOfEntry_eq_some_iff toSubject namespace_ userInfo e pv).1 hp
    rcases h with h | h | ⟨r, hr2, h⟩ | h
    · rw [hs] at h; cases h
    · exact absurd hr (h roleRef)
    · rw [hr] at hr2
      injection hr2 with hr2
      injection hr2 with hr2
      subst hr2
      exact absurd hn (h n)
    · exact absurd hns (h ns)

/-- C11: inserting a malformed entry (not a map, subject not extractable,
`roleRef` or its `name` absent or of the wrong type, `namespace` absent or of
the wrong type) at any position of `spec.roleBindings` leaves the result of
`listProjects` unchanged. -/
theorem listProjects_insert_malformed {Obj : Type} (ToUnstructured : Obj → Option GoMap)
    (toSubject : GoMap → Option Subject) (namespace_ name : String) (obj obj2 : Obj)
    (userInfo : UserInfo) (pre post : List Value) (e : Value)
    (he : malformedEntry toSubject e)
    (h : hasRoleBindings ToUnstructured obj (pre ++ post))
    (h2 : hasRoleBindings ToUnstructured obj2 (pre ++ e :: post)) :
    listProjects ToUnstructured toSubject namespace_ name obj2 userInfo =
      listProjects ToUnstructured toSubject namespace_ name obj userInfo := by
  rw [listProjects_of_hasRoleBindings _ _ _ _ _ _ _ h,
    listProjects_of_hasRoleBindings _ _ _ _ _ _ _ h2, List.filterMap_append,
    List.filterMap_append, List.filterMap_cons,
    projectOfEntry_of_malformed toSubject namespace_ userInfo e he]

/-- C11 at the objects of P7: next to the group binding of P5, an entry that
lacks `namespace` is skipped, before it as well as after it. -/
theorem listProjects_insert_malformed_witness :
    malformedEntry exampleToSubject
        (.map [("subject", .map [("kind", .str "Group"), ("name", .str "team-a")]),
          ("roleRef", .map [("name", .str "kubevirt.io:edit")])]) ∧
    hasRoleBindings some (mkCluster [mkBinding "Group" "team-a" "kubevirt.io:edit" "ns1"])
        ([mkBinding "Group" "team-a" "kubevirt.io:edit" "ns1"] ++ []) ∧
    hasRoleBindings some
        (mkCluster [mkBinding "Group" "team-a" "kubevirt.io:edit" "ns1",
          .map [("subject", .map [("kind", .str "Group"), ("name", .str "team-a")]),
            ("roleRef", .map [("name", .str "kubevirt.io:edit")])]])
        ([mkBinding "Group" "team-a" "kubevirt.io:edit" "ns1"] ++
          .map [("subject", .map [("kind", .str "Group"), ("name", .str "team-a")]),
            ("roleRef", .map [("name", .str "kubevirt.io:edit")])] :: []) ∧
    listProjects some exampleToSubject "clusterX" "cluster-x"
        (mkCluster [mkBinding "Group" "team-a" "kubevirt.io:edit" "ns1",
          .map [("subject", .map [("kind", .str "Group"), ("name", .str "team-a")]),
            ("roleRef", .map [("name", .str "kubevirt.io:edit")])]]) alice =
      listProjects some exampleToSubject "clusterX" "cluster-x"
        (mkCluster [mkBinding "Group" "team-a" "kubevirt.io:edit" "ns1"]) alice ∧
    listProjects some exampleToSubject "clusterX" "cluster-x"
        (mkCluster [mkBinding "Group" "team-a" "kubevirt.io:edit" "ns1",
          .map [("subject", .map [("kind", .str "Group"), ("name", .str "team-a")]),
            ("roleRef", .map [("name", .str "kubevirt.io:edit")])]]) alice =
      [{ name := "ns1", cluster := "clusterX" }] :=
  have hm : malformedEntry exampleToSubject
      (.map [("subject", .map [("kind", .str "Group"), ("name", .str "team-a")]),
        ("roleRef", .map [("name", .str "kubevirt.io:edit")])]) :=
    Or.inr (Or.inr (Or.inr (fun ns h => by simp [List.lookup] at h)))
  ⟨hm, ⟨_, _, rfl, rfl, rfl⟩, ⟨_, _, rfl, rfl, rfl⟩,
    listProjects_insert_malformed some exampleToSubject "clusterX" "cluster-x" _ _ alice
      [mkBinding "Group" "team-a" "kubevirt.io:edit" "ns1"] [] _ hm
      ⟨_, _, rfl, rfl, rfl⟩ ⟨_, _, rfl, rfl, rfl⟩,
    by decide⟩

/-- C12: if the conversion of the cluster object fails, or the converted map
has no `spec.roleBindings` field, or that field is not a sequence (in short:
there is no sequence `bs` that the object holds as `spec.roleBindings`),
`listProjects` returns the empty sequence for every identity. -/
theorem listProjects_nil_of_no_roleBindings {Obj : Type}
    (ToUnstructured : Obj → Option GoMap) (toSubject : GoMap → Option Subject)
    (namespace_ name : String) (obj : Obj)
    (h : ∀ bs, ¬ hasRoleBindings ToUnstructured obj bs) (userInfo : UserInfo) :
    listProjects ToUnstructured toSubject namespace_ name obj userInfo = [] := by
  rcases listProjects_eq_nil_or_hasRoleBindings ToUnstructured toSubject namespace_ name obj
    userInfo with h0 | ⟨bs, hbs⟩
  · exact h0
  · exact absurd hbs (h bs)

/-- C12 at three objects: one whose conversion fails, the object of P8
`{spec: {}}` without a `roleBindings` field, and one whose `roleBindings` is a
string. -/
theorem listProjects_nil_of_no_roleBindings_witness :
    ((∀ bs, ¬ hasRoleBindings (fun _ : Unit => (none : Option GoMap)) () bs) ∧
      listProjects (fun _ : Unit => (none : Option GoMap)) exampleToSubject
        "clusterX" "cluster-x" () alice = []) ∧
    ((∀ bs, ¬ hasRoleBindings some ([("spec", .map [])] : GoMap) bs) ∧
      listProjects some exampleToSubject "clusterX" "cluster-x"
        ([("spec", .map [])] : GoMap) alice = []) ∧
    ((∀ bs, ¬ hasRoleBindings some
        ([("spec", .map [("roleBindings", .str "none")])] : GoMap) bs) ∧
      listProjects some exampleToSubject "clusterX" "cluster-x"
        ([("spec", .map [("roleBindings", .str "none")])] : GoMap) alice = []) := by
  have h1 : ∀ bs, ¬ hasRoleBindings (fun _ : Unit => (none : Option GoMap)) () bs := by
    rintro bs ⟨u, spec, hu, -, -⟩
    cases hu
  have h2 : ∀ bs, ¬ hasRoleBindings some ([("spec", .map [])] : GoMap) bs := by
    rintro bs ⟨u, spec, hu, hs, hb⟩
    cases hu
    have : some (Value.map []) = some (Value.map spec) := hs
    injection this with this
    injection this with this
    subst this
    cases hb
  have h3 : ∀ bs, ¬ hasRoleBindings some
      ([("spec", .map [("roleBindings", .str "none")])] : GoMap) bs := by
    rintro bs ⟨u, spec, hu, hs, hb⟩
    cases hu
    have : some (Value.map [("roleBindings", Value.str "none")]) = some (Value.map spec) := hs
    injection this with this
    injection this with this
    subst this
    have : some (Value.str "none") = some (Value.slice bs) := hb
    injection this with this
    cases this
  exact ⟨⟨h1, listProjects_nil_of_no_roleBindings _ exampleToSubject "clusterX" "cluster-x"
      () h1 alice⟩,
    ⟨h2, listProjects_nil_of_no_roleBindings some exampleToSubject "clusterX" "cluster-x"
      _ h2 alice⟩,
    ⟨h3, listProjects_nil_of_no_roleBindings some exampleToSubject "clusterX" "cluster-x"
      _ h3 alice⟩⟩

/-! ## Further claims on the rule matcher -/

theorem adminVerbs_imp_viewVerbs (rule : PolicyRule) (h : adminVerbs rule) : viewVerbs rule := by
  rcases h with ⟨_, hg | hl⟩ | hs
  · exact Or.inl hg
  · exact Or.inr (Or.inl hl)
  · exact Or.inr (Or.inr hs)

/-- C13: if the first rule of the role matches the requested group, has `get`,
`list` or `*` among its verbs, matches the requested resource and has no
resource names, `GetViewResourceFromClusterRole` returns the empty name set
and `allNames = true`, whatever rules follow. -/
theorem GetViewResourceFromClusterRole_first_rule_unrestricted (rule : PolicyRule)
    (rest : List PolicyRule) (group resource : String)
    (hg : APIGroupMatches rule group = true) (hv : viewVerbs rule)
    (hr : ResourceMatches rule resource "" = true) (hn : rule.ResourceNames = []) :
    GetViewResourceFromClusterRole ⟨rule :: rest⟩ group resource = (∅, true) := by
  rw [view_eq_aggregate]
  exact aggregate_cons_all _ _ _ _ _ _ hg ((viewVerbsOk_iff rule).2 hv) hn

/-- C13 at the rules of P3: the unrestricted rule comes first and the rule
restricted to the name `a` behind it is ignored. -/
theorem GetViewResourceFromClusterRole_first_rule_unrestricted_witness :
    APIGroupMatches (mkRule ["get"] ["*"] []) "" = true ∧
    viewVerbs (mkRule ["get"] ["*"] []) ∧
    ResourceMatches (mkRule ["get"] ["*"] []) "pods" "" = true ∧
    (mkRule ["get"] ["*"] []).ResourceNames = [] ∧
    GetViewResourceFromClusterRole
      ⟨mkRule ["get"] ["*"] [] :: [mkRule ["get"] ["*"] ["a"]]⟩ "" "pods" = (∅, true) :=
  ⟨by decide, by decide, by decide, rfl,
    GetViewResourceFromClusterRole_first_rule_unrestricted (mkRule ["get"] ["*"] [])
      [mkRule ["get"] ["*"] ["a"]] "" "pods" (by decide) (by decide) (by decide) rfl⟩

/-- C14: `APIGroupMatches` is true exactly when `rule.APIGroups` contains `*`
or contains the requested group; with API groups `{*}` it is true for every
requested group. -/
theorem APIGroupMatches_iff :
    (∀ (rule : PolicyRule) (requestedGroup : String),
      APIGroupMatches rule requestedGroup = true ↔
        "*" ∈ rule.APIGroups ∨ requestedGroup ∈ rule.APIGroups) ∧
    (∀ (v r n u : List String) (requestedGroup : String),
      APIGroupMatches ⟨v, ["*"], r, n, u⟩ requestedGroup = true) := by
  refine ⟨fun rule g => APIGroupMatches_loop_iff g rule.APIGroups, fun v r n u g => ?_⟩
  exact (APIGroupMatches_loop_iff g ["*"]).2 (Or.inl (List.mem_singleton.2 rfl))

/-- C15: `VerbMatches` is true exactly when `rule.Verbs` contains a string
equal to the requested verb; nothing is a wildcard: verbs `{*}` do not match
the requested verb `get`. -/
theorem VerbMatches_iff_mem :
    (∀ (rule : PolicyRule) (requestedVerb : String),
      VerbMatches rule requestedVerb = true ↔ requestedVerb ∈ rule.Verbs) ∧
    (∀ (g r n u : List String), VerbMatches ⟨["*"], g, r, n, u⟩ "get" = false) :=
  ⟨VerbMatches_iff, fun _ _ _ _ => (by decide : VerbMatches.loop "get" ["*"] = false)⟩

/-- C16 (defect of the code, the one of C2): a rule with an empty `resources`
collection matches no resource, yet the role made of the rule
`{apiGroups ["*"], resources [], verbs ["get"], resourceNames []}` is given
`allNames = true` by `GetViewResourceFromClusterRole`, and the same rule with
verbs `["*"]` by `GetAdminResourceFromClusterRole`: the test on empty
`resourceNames` returns before `ResourceMatches` is consulted. -/
theorem empty_resources_rule_grants_all :
    (mkRule ["get"] [] []).Resources = [] ∧
    ResourceMatches (mkRule ["get"] [] []) "pods" "" = false ∧
    GetViewResourceFromClusterRole ⟨[mkRule ["get"] [] []]⟩ "" "pods" = (∅, true) ∧
    (mkRule ["*"] [] []).Resources = [] ∧
    ResourceMatches (mkRule ["*"] [] []) "pods" "" = false ∧
    GetAdminResourceFromClusterRole ⟨[mkRule ["*"] [] []]⟩ "" "pods" = (∅, true) := by
  decide

/-- C17: admin capability never exceeds view capability. If
`GetAdminResourceFromClusterRole` returns `allNames = true`, so does
`GetViewResourceFromClusterRole`; if the latter returns `allNames = false`, so
does the former, and the admin names are among the view names. -/
theorem admin_le_view (role : ClusterRole) (group resource : String) :
    ((GetAdminResourceFromClusterRole role group resource).2 = true →
      (GetViewResourceFromClusterRole role group resource).2 = true) ∧
    ((GetViewResourceFromClusterRole role group resource).2 = false →
      (GetAdminResourceFromClusterRole role group resource).2 = false ∧
      (GetAdminResourceFromClusterRole role group resource).1 ⊆
        (GetViewResourceFromClusterRole role group resource).1) := by
  have himp : (GetAdminResourceFromClusterRole role group resource).2 = true →
      (GetViewResourceFromClusterRole role group resource).2 = true := by
    rw [admin_eq_aggregate, view_eq_aggregate, aggregate_all_iff, aggregate_all_iff]
    rintro ⟨r, hr, hg, hv, hn⟩
    exact ⟨r, hr, hg,
      (viewVerbsOk_iff r).2 (adminVerbs_imp_viewVerbs r ((adminVerbsOk_iff r).1 hv)), hn⟩
  refine ⟨himp, fun hview => ?_⟩
  have hadmin : (GetAdminResourceFromClusterRole role group resource).2 = false := by
    cases h : (GetAdminResourceFromClusterRole role group resource).2 with
    | false => rfl
    | true => rw [himp h] at hview; cases hview
  refine ⟨hadmin, fun n hn => ?_⟩
  rw [admin_eq_aggregate] at hadmin hn
  rw [view_eq_aggregate] at hview ⊢
  rw [aggregate_names_of_not_all _ _ _ _ _ hadmin n] at hn
  rw [aggregate_names_of_not_all _ _ _ _ _ hview n]
  rcases hn with hn | ⟨r, hr, hg, hv, hres, hmem⟩
  · exact Or.inl hn
  · exact Or.inr ⟨r, hr, hg,
      (viewVerbsOk_iff r).2 (adminVerbs_imp_viewVerbs r ((adminVerbsOk_iff r).1 hv)), hres, hmem⟩

/-- C17 at two concrete roles: one whose admin result is `allNames = true`,
and one of named rules where the admin names `b` are among the view names
`a`, `b`. -/
theorem admin_le_view_witness :
    ((GetAdminResourceFromClusterRole ⟨[mkRule ["update", "get"] ["pods"] []]⟩ "" "pods").2 =
        true ∧
      (GetViewResourceFromClusterRole ⟨[mkRule ["update", "get"] ["pods"] []]⟩ "" "pods").2 =
        true) ∧
    ((GetViewResourceFromClusterRole
        ⟨[mkRule ["get"] ["pods"] ["a"], mkRule ["update", "list"] ["pods"] ["b"]]⟩
        "" "pods").2 = false ∧
      (GetAdminResourceFromClusterRole
        ⟨[mkRule ["get"] ["pods"] ["a"], mkRule ["update", "list"] ["pods"] ["b"]]⟩
        "" "pods").2 = false ∧
      (GetAdminResourceFromClusterRole
        ⟨[mkRule ["get"] ["pods"] ["a"], mkRule ["update", "list"] ["pods"] ["b"]]⟩
        "" "pods").1 ⊆
      (GetViewResourceFromClusterRole
        ⟨[mkRule ["get"] ["pods"] ["a"], mkRule ["update", "list"] ["pods"] ["b"]]⟩
        "" "pods").1) :=
  ⟨⟨by decide, (admin_le_view ⟨[mkRule ["update", "get"] ["pods"] []]⟩ "" "pods").1 (by decide)⟩,
    ⟨by decide,
      (admin_le_view
        ⟨[mkRule ["get"] ["pods"] ["a"], mkRule ["update", "list"] ["pods"] ["b"]]⟩
        "" "pods").2 (by decide)⟩⟩

/-- C18: the `allNames` flag of `GetViewResourceFromClusterRole` and of
`GetAdminResourceFromClusterRole` depends neither on the requested resource
nor on the order of the rules: two permutations of a rule list queried for any
two resources give the same flag, which is true exactly when some rule matches
the group, passes the verb test and has no resource names. -/
theorem allNames_independent_of_resource_and_order (rules1 rules2 : List PolicyRule)
    (hperm : rules1.Perm rules2) (group resource1 resource2 : String) :
    ((GetViewResourceFromClusterRole ⟨rules1⟩ group resource1).2 =
        (GetViewResourceFromClusterRole ⟨rules2⟩ group resource2).2 ∧
      ((GetViewResourceFromClusterRole ⟨rules1⟩ group resource1).2 = true ↔
        ∃ rule ∈ rules1, APIGroupMatches rule group = true ∧ viewVerbs rule ∧
          rule.ResourceNames = [])) ∧
    ((GetAdminResourceFromClusterRole ⟨rules1⟩ group resource1).2 =
        (GetAdminResourceFromClusterRole ⟨rules2⟩ group resource2).2 ∧
      ((GetAdminResourceFromClusterRole ⟨rules1⟩ group resource1).2 = true ↔
        ∃ rule ∈ rules1, APIGroupMatches rule group = true ∧ adminVerbs rule ∧
          rule.ResourceNames = [])) := by
  have hv : ∀ (rules : List PolicyRule) (res : String),
      (GetViewResourceFromClusterRole ⟨rules⟩ group res).2 = true ↔
        ∃ rule ∈ rules, APIGroupMatches rule group = true ∧ viewVerbs rule ∧
          rule.ResourceNames = [] := by
    intro rules res
    rw [view_eq_aggregate, aggregate_all_iff]
    simp only [viewVerbsOk_iff]
  have ha : ∀ (rules : List PolicyRule) (res : String),
      (GetAdminResourceFromClusterRole ⟨rules⟩ group res).2 = true ↔
        ∃ rule ∈ rules, APIGroupMatches rule group = true ∧ adminVerbs rule ∧
          rule.ResourceNames = [] := by
    intro rules res
    rw [admin_eq_aggregate, aggregate_all_iff]
    simp only [adminVerbsOk_iff]
  refine ⟨⟨?_, hv rules1 resource1⟩, ⟨?_, ha rules1 resource1⟩⟩
  · rw [Bool.eq_iff_iff, hv rules1 resource1, hv rules2 resource2]
    exact ⟨fun ⟨r, hr, h⟩ => ⟨r, hperm.mem_iff.1 hr, h⟩,
      fun ⟨r, hr, h⟩ => ⟨r, hperm.mem_iff.2 hr, h⟩⟩
  · rw [Bool.eq_iff_iff, ha rules1 resource1, ha rules2 resource2]
    exact ⟨fun ⟨r, hr, h⟩ => ⟨r, hperm.mem_iff.1 hr, h⟩,
      fun ⟨r, hr, h⟩ => ⟨r, hperm.mem_iff.2 hr, h⟩⟩

/-- C18 at a concrete pair: a named rule on `pods` and an unrestricted rule on
`nodes`, in both orders, queried for `pods` and for `secrets`. -/
theorem allNames_independent_of_resource_and_order_witness :
    [mkRule ["*"] ["pods"] ["a"], mkRule ["*"] ["nodes"] []].Perm
        [mkRule ["*"] ["nodes"] [], mkRule ["*"] ["pods"] ["a"]] ∧
    (GetViewResourceFromClusterRole
        ⟨[mkRule ["*"] ["pods"] ["a"], mkRule ["*"] ["nodes"] []]⟩ "" "pods").2 =
      (GetViewResourceFromClusterRole
        ⟨[mkRule ["*"] ["nodes"] [], mkRule ["*"] ["pods"] ["a"]]⟩ "" "secrets").2 ∧
    (GetAdminResourceFromClusterRole
        ⟨[mkRule ["*"] ["pods"] ["a"], mkRule ["*"] ["nodes"] []]⟩ "" "pods").2 =
      (GetAdminResourceFromClusterRole
        ⟨[mkRule ["*"] ["nodes"] [], mkRule ["*"] ["pods"] ["a"]]⟩ "" "secrets").2 :=
  ⟨List.Perm.swap _ _ _,
    (allNames_independent_of_resource_and_order _ _ (List.Perm.swap _ _ _)
      "" "pods" "secrets").1.1,
    (allNames_independent_of_resource_and_order _ _ (List.Perm.swap _ _ _)
      "" "pods" "secrets").2.1⟩

/-! ## Subject lists -/

theorem lookup_cons_ite (x k : Subject) (v : Bool) (rest : SubjectMap) :
    List.lookup x ((k, v) :: rest) = if x = k then some v else List.lookup x rest := by
  rw [List.lookup_cons]
  by_cases h : x = k
  · simp [h]
  · have hb : (x == k) = false := by simp [h]
    simp [hb, h]

theorem lookup_mapAssign (m : SubjectMap) (k : Subject) (v : Bool) (x : Subject) :
    (mapAssign m k v).lookup x = if x = k then some v else m.lookup x := by
  induction m with
  | nil => simp [mapAssign, lookup_cons_ite]
  | cons p rest ih =>
    obtain ⟨k0, v0⟩ := p
    by_cases h0 : k0 = k
    · subst h0
      simp only [mapAssign, beq_self_eq_true, if_true, lookup_cons_ite]
      split <;> rfl
    · simp only [mapAssign, beq_iff_eq, h0, if_false, lookup_cons_ite, ih]
      by_cases h : x = k
      · have h1 : ¬ x = k0 := fun e => h0 (e.symm.trans h)
        rw [if_neg h1, if_pos h, if_pos h]
      · by_cases h1 : x = k0
        · rw [if_pos h1, if_neg h, if_pos h1]
        · rw [if_neg h1, if_neg h, if_neg h, if_neg h1]

theorem keys_mapAssign (m : SubjectMap) (k : Subject) (v : Bool) :
    (mapAssign m k v).map Prod.fst =
      if k ∈ m.map Prod.fst then m.map Prod.fst else m.map Prod.fst ++ [k] := by
  induction m with
  | nil => simp [mapAssign]
  | cons p rest ih =>
    obtain ⟨k0, v0⟩ := p
    by_cases h0 : k0 = k
    · subst h0
      simp [mapAssign]
    · have h1 : ¬ k = k0 := fun e => h0 e.symm
      simp only [mapAssign, beq_iff_eq, h0, if_false, List.map_cons, ih, List.mem_cons, h1,
        false_or]
      split <;> simp

theorem mem_mapAssign (m : SubjectMap) (k : Subject) (v : Bool) (p : Subject × Bool)
    (h : p ∈ mapAssign m k v) : p ∈ m ∨ p = (k, v) := by
  induction m with
  | nil => simpa [mapAssign] using h
  | cons q rest ih =>
    obtain ⟨k0, v0⟩ := q
    by_cases h0 : k0 = k
    · simp only [mapAssign, beq_iff_eq, h0, if_true, List.mem_cons] at h
      rcases h with h | h
      · exact Or.inr h
      · exact Or.inl (List.mem_cons_of_mem _ h)
    · simp only [mapAssign, beq_iff_eq, h0, if_false, List.mem_cons] at h
      rcases h with h | h
      · exact Or.inl (h ▸ List.mem_cons_self _ _)
      · rcases ih h with h | h
        · exact Or.inl (List.mem_cons_of_mem _ h)
        · exact Or.inr h

/-- The map built by the loop `for _, s := range subjects { m[s] = true }`,
started from `m`. -/
theorem lookup_foldl_mapAssign (s : List Subject) (m : SubjectMap) (x : Subject) :
    (s.foldl (fun m c => mapAssign m c true) m).lookup x =
      if x ∈ s then some true else m.lookup x := by
  induction s generalizing m with
  | nil => simp
  | cons c rest ih =>
    rw [List.foldl_cons, ih, lookup_mapAssign]
    by_cases h1 : x ∈ rest
    · simp [h1]
    · by_cases h2 : x = c
      · simp [h2]
      · simp [h1, h2]

theorem keys_foldl_mapAssign (s : List Subject) (m : SubjectMap)
    (hm : (m.map Prod.fst).Nodup) :
    ((s.foldl (fun m c => mapAssign m c true) m).map Prod.fst).Nodup ∧
      ∀ x, x ∈ (s.foldl (fun m c => mapAssign m c true) m).map Prod.fst ↔
        x ∈ m.map Prod.fst ∨ x ∈ s := by
  induction s generalizing m with
  | nil => simpa using hm
  | cons c rest ih =>
    rw [List.foldl_cons]
    have hk := keys_mapAssign m c true
    have hnd : ((mapAssign m c true).map Prod.fst).Nodup := by
      rw [hk]
      by_cases hc : c ∈ m.map Prod.fst
      · rw [if_pos hc]; exact hm
      · rw [if_neg hc]
        exact List.Nodup.append hm (List.nodup_singleton c)
          (by
            intro a ha hb
            rw [List.mem_singleton] at hb
            exact hc (hb ▸ ha))
    obtain ⟨h1, h2⟩ := ih (mapAssign m c true) hnd
    refine ⟨h1, fun x => ?_⟩
    rw [h2 x, hk]
    by_cases hc : c ∈ m.map Prod.fst
    · rw [if_pos hc]
      constructor
      · rintro (h | h)
        · exact Or.inl h
        · exact Or.inr (List.mem_cons_of_mem _ h)
      · rintro (h | h)
        · exact Or.inl h
        · rcases List.mem_cons.1 h with h | h
          · exact Or.inl (h ▸ hc)
          · exact Or.inr h
    · rw [if_neg hc]
      simp only [List.mem_append, List.mem_singleton, List.mem_cons]
      tauto

theorem values_foldl_mapAssign (s : List Subject) (m : SubjectMap)
    (hm : ∀ p ∈ m, p.2 = true) :
    ∀ p ∈ s.foldl (fun m c => mapAssign m c true) m, p.2 = true := by
  induction s generalizing m with
  | nil => simpa using hm
  | cons c rest ih =>
    rw [List.foldl_cons]
    apply ih
    intro p hp
    rcases mem_mapAssign m c true p hp with h | h
    · exact hm p h
    · rw [h]

theorem length_foldl_mapAssign (s : List Subject) :
    (s.foldl (fun m c => mapAssign m c true) ([] : SubjectMap)).length = s.toFinset.card := by
  obtain ⟨hnd, hmem⟩ := keys_foldl_mapAssign s [] (by simp)
  rw [← List.length_map (s.foldl (fun m c => mapAssign m c true) ([] : SubjectMap)) Prod.fst,
    ← List.toFinset_card_of_nodup hnd]
  congr 1
  ext x
  simp [hmem x]

theorem DeepEqual_foldl_iff (s1 s2 : List Subject) :
    DeepEqual (s1.foldl (fun m c => mapAssign m c true) [])
        (s2.foldl (fun m c => mapAssign m c true) []) = true ↔
      ∀ x, x ∈ s1 ↔ x ∈ s2 := by
  obtain ⟨-, hmem1⟩ := keys_foldl_mapAssign s1 [] (by simp)
  have hval1 := values_foldl_mapAssign s1 [] (by simp)
  have hsub : (∀ p ∈ s1.foldl (fun m c => mapAssign m c true) ([] : SubjectMap),
      (s2.foldl (fun m c => mapAssign m c true) ([] : SubjectMap)).lookup p.1 = some p.2) ↔
      ∀ x ∈ s1, x ∈ s2 := by
    constructor
    · intro h x hx
      have hx1 : x ∈ (s1.foldl (fun m c => mapAssign m c true) ([] : SubjectMap)).map Prod.fst :=
        (hmem1 x).2 (Or.inr hx)
      obtain ⟨p, hp, rfl⟩ := List.mem_map.1 hx1
      have := h p hp
      rw [lookup_foldl_mapAssign] at this
      by_cases hx2 : p.1 ∈ s2
      · exact hx2
      · simp [hx2] at this
    · intro h p hp
      have hp1 : p.1 ∈ s1 := by
        have := (hmem1 p.1).1 (List.mem_map.2 ⟨p, hp, rfl⟩)
        simpa using this
      rw [lookup_foldl_mapAssign, if_pos (h p.1 hp1), hval1 p hp]
  simp only [DeepEqual, Bool.and_eq_true, beq_iff_eq, List.all_eq_true]
  rw [hsub, length_foldl_mapAssign, length_foldl_mapAssign]
  constructor
  · rintro ⟨hc, hs⟩
    have hss : s1.toFinset ⊆ s2.toFinset := fun x hx =>
      List.mem_toFinset.2 (hs x (List.mem_toFinset.1 hx))
    have heq := Finset.eq_of_subset_of_card_le hss (le_of_eq hc.symm)
    intro x
    rw [← List.mem_toFinset, ← List.mem_toFinset (l := s2), heq]
  · intro h
    have heq : s1.toFinset = s2.toFinset := by
      ext x; simp [h x]
    exact ⟨by rw [heq], fun x hx => (h x).1 hx⟩

theorem EqualSubjects_eq_true_iff (s1 s2 : List Subject) :
    EqualSubjects s1 s2 = true ↔ s1.length = s2.length ∧ ∀ x, x ∈ s1 ↔ x ∈ s2 := by
  unfold EqualSubjects
  by_cases hl : s1.length = s2.length
  · simp only [hl, bne_self_eq_false, Bool.false_eq_true, if_false, true_and]
    exact DeepEqual_foldl_iff s1 s2
  · simp [hl]

theorem foldl_append_if (s c : List Subject) (acc : List Subject) :
    c.foldl (fun ret cur =>
        if ((s.foldl (fun m x => mapAssign m x true) ([] : SubjectMap)).lookup cur).isNone
        then ret ++ [cur] else ret) acc =
      acc ++ c.filter (fun x => decide (x ∉ s)) := by
  induction c generalizing acc with
  | nil => simp
  | cons x rest ih =>
    rw [List.foldl_cons, ih, lookup_foldl_mapAssign]
    by_cases hx : x ∈ s
    · simp [hx]
    · simp [hx]

theorem Mergesubjects_eq (s c : List Subject) :
    Mergesubjects s c = s ++ c.filter (fun x => decide (x ∉ s)) :=
  foldl_append_if s c s

/-- C19: `EqualSubjects` is true exactly when the two lists have the same
length and the same elements (every subject of one occurs in the other). It is
reflexive, symmetric and blind to the order of either list, and it is not
multiset equality: for distinct `a` and `b` the lists `[a, a, b]` and
`[a, b, b]` are reported equal although one is not a permutation of the
other. -/
theorem EqualSubjects_iff :
    (∀ s1 s2 : List Subject,
      EqualSubjects s1 s2 = true ↔ s1.length = s2.length ∧ ∀ x, x ∈ s1 ↔ x ∈ s2) ∧
    (∀ s : List Subject, EqualSubjects s s = true) ∧
    (∀ s1 s2 : List Subject, EqualSubjects s1 s2 = EqualSubjects s2 s1) ∧
    (∀ s1 s2 t1 t2 : List Subject, s1.Perm t1 → s2.Perm t2 →
      EqualSubjects s1 s2 = EqualSubjects t1 t2) ∧
    (∀ a b : Subject, a ≠ b →
      EqualSubjects [a, a, b] [a, b, b] = true ∧ ¬ [a, a, b].Perm [a, b, b]) := by
  refine ⟨EqualSubjects_eq_true_iff, fun s => ?_, fun s1 s2 => ?_, fun s1 s2 t1 t2 h1 h2 => ?_,
    fun a b hab => ⟨?_, ?_⟩⟩
  · exact (EqualSubjects_eq_true_iff s s).2 ⟨rfl, fun _ => Iff.rfl⟩
  · rw [Bool.eq_iff_iff, EqualSubjects_eq_true_iff, EqualSubjects_eq_true_iff]
    exact ⟨fun ⟨hl, hm⟩ => ⟨hl.symm, fun x => (hm x).symm⟩,
      fun ⟨hl, hm⟩ => ⟨hl.symm, fun x => (hm x).symm⟩⟩
  · rw [Bool.eq_iff_iff, EqualSubjects_eq_true_iff, EqualSubjects_eq_true_iff,
      h1.length_eq, h2.length_eq]
    constructor
    · rintro ⟨hl, hm⟩
      exact ⟨hl, fun x => by rw [← h1.mem_iff, ← h2.mem_iff]; exact hm x⟩
    · rintro ⟨hl, hm⟩
      exact ⟨hl, fun x => by rw [h1.mem_iff, h2.mem_iff]; exact hm x⟩
  · refine (EqualSubjects_eq_true_iff _ _).2 ⟨rfl, fun x => ?_⟩
    simp only [List.mem_cons, List.mem_nil_iff, or_false]
    tauto
  · intro hp
    have hc := hp.count_eq a
    have hba : ¬ b = a := fun e => hab e.symm
    simp [List.count_cons, hab, hba] at hc

/-- C19 at concrete subjects: the users `a`, `a`, `b` and `a`, `b`, `b` are
reported equal, and a list is equal to its reversal. -/
theorem EqualSubjects_iff_witness :
    mkUser "a" ≠ mkUser "b" ∧
    (EqualSubjects [mkUser "a", mkUser "a", mkUser "b"]
        [mkUser "a", mkUser "b", mkUser "b"] = true ∧
      ¬ [mkUser "a", mkUser "a", mkUser "b"].Perm [mkUser "a", mkUser "b", mkUser "b"]) ∧
    [mkUser "a", mkUser "b"].Perm [mkUser "b", mkUser "a"] ∧
    EqualSubjects [mkUser "a", mkUser "b"] [mkUser "a", mkUser "b"] =
      EqualSubjects [mkUser "b", mkUser "a"] [mkUser "a", mkUser "b"] :=
  ⟨by decide, EqualSubjects_iff.2.2.2.2 (mkUser "a") (mkUser "b") (by decide),
    List.Perm.swap _ _ _,
    EqualSubjects_iff.2.2.2.1 _ _ _ _ (List.Perm.swap _ _ _) (List.Perm.refl _)⟩

/-- C20: `Mergesubjects` returns `subjects` followed by, in their order, those
elements of `cursubjects` that do not occur in `subjects`, once per
occurrence; so every element of either input occurs in the result, and merging
the same `cursubjects` into the result again returns the result. -/
theorem Mergesubjects_spec :
    (∀ subjects cursubjects : List Subject,
      Mergesubjects subjects cursubjects =
        subjects ++ cursubjects.filter (fun x => decide (x ∉ subjects))) ∧
    (∀ (subjects cursubjects : List Subject) (x : Subject),
      x ∈ subjects ∨ x ∈ cursubjects → x ∈ Mergesubjects subjects cursubjects) ∧
    (∀ subjects cursubjects : List Subject,
      Mergesubjects (Mergesubjects subjects cursubjects) cursubjects =
        Mergesubjects subjects cursubjects) := by
  have hmem : ∀ (subjects cursubjects : List Subject) (x : Subject),
      x ∈ subjects ∨ x ∈ cursubjects → x ∈ Mergesubjects subjects cursubjects := by
    intro s c x hx
    rw [Mergesubjects_eq, List.mem_append, List.mem_filter]
    by_cases hs : x ∈ s
    · exact Or.inl hs
    · rcases hx with hx | hx
      · exact absurd hx hs
      · exact Or.inr ⟨hx, by simpa using hs⟩
  refine ⟨Mergesubjects_eq, hmem, fun s c => ?_⟩
  rw [Mergesubjects_eq (Mergesubjects s c) c]
  have hnil : c.filter (fun x => decide (x ∉ Mergesubjects s c)) = [] := by
    rw [List.filter_eq_nil_iff]
    intro x hx
    simpa using hmem s c x (Or.inr hx)
  rw [hnil, List.append_nil]

/-- C20 at concrete subjects: merging `c`, `a`, `c` into `a`, `b` appends `c`
twice and leaves `a` out; every element of either list is in the result, and a
second merge changes nothing. -/
theorem Mergesubjects_spec_witness :
    Mergesubjects [mkUser "a", mkUser "b"] [mkUser "c", mkUser "a", mkUser "c"] =
      [mkUser "a", mkUser "b", mkUser "c", mkUser "c"] ∧
    (mkUser "c" ∈ [mkUser "a", mkUser "b"] ∨
      mkUser "c" ∈ [mkUser "c", mkUser "a", mkUser "c"]) ∧
    mkUser "c" ∈ Mergesubjects [mkUser "a", mkUser "b"]
      [mkUser "c", mkUser "a", mkUser "c"] ∧
    Mergesubjects
        (Mergesubjects [mkUser "a", mkUser "b"] [mkUser "c", mkUser "a", mkUser "c"])
        [mkUser "c", mkUser "a", mkUser "c"] =
      Mergesubjects [mkUser "a", mkUser "b"] [mkUser "c", mkUser "a", mkUser "c"] :=
  ⟨by decide, by decide,
    Mergesubjects_spec.2.1 _ _ (mkUser "c") (by decide),
    Mergesubjects_spec.2.2 _ _⟩

end Foundation
